import Mathlib

/-!
Verification of the egressgateway policy reconciliation engine
(`pkg/agent/police.go`) against its natural-language specification.

The Go source is shallowly embedded: pure helpers become Lean functions,
the reconciler's interaction with the kernel ipset / iptables backends is
modelled as explicit state passing over an `AgentState`, and the Kubernetes
client view is a `World` value.  Machine integers are `Nat` with explicit
`% 2^32` where Go truncates.  Fallible Go code returns `Except`.

Functions of the Go standard library (`net.ParseIP`, `net.ParseCIDR`,
`IP.String`, `strings`, `crypto/sha1`) are not part of this repository;
they are modelled here faithfully to Go's documented behaviour (Go 1.17+
rules: IPv4 octets with leading zeros are rejected) so that the repository
functions that call them can be translated verbatim.
-/

set_option maxHeartbeats 1000000
set_option maxRecDepth 10000

namespace EgressGW

/-! ## Character-list string primitives

Kernel-reducible counterparts of the byte-level `strings` operations the
Go code uses.  They work on characters; for the ASCII separators and
suffixes involved this coincides with Go's byte-level behaviour, since
UTF-8 continuation bytes never collide with ASCII. -/

/-- Go `strings.Split` with a one-character separator. -/
def splitOnChar (c : Char) : List Char → List (List Char)
  | [] => [[]]
  | x :: xs =>
    if x == c then [] :: splitOnChar c xs
    else
      match splitOnChar c xs with
      | h :: t => (x :: h) :: t
      | [] => [[x]]

/-- Go `strings.Split` with the separator `::` (leftmost, non-overlapping
matches). -/
def splitDoubleColon : List Char → List (List Char)
  | [] => [[]]
  | ':' :: ':' :: xs => [] :: splitDoubleColon xs
  | x :: xs =>
    match splitDoubleColon xs with
    | h :: t => (x :: h) :: t
    | [] => [[x]]

/-- Go `strings.HasSuffix`. -/
def strEndsWith (s sfx : String) : Bool :=
  let sc := s.toList
  let pc := sfx.toList
  decide (pc.length ≤ sc.length) && (sc.drop (sc.length - pc.length) == pc)

/-- Go `strings.TrimSuffix` (the caller checks the suffix first): drop the
last `n` characters. -/
def strDropRight (s : String) (n : Nat) : String :=
  String.mk (s.toList.take (s.toList.length - n))

/-- Join string parts with a separator (Go `strings.Join`). -/
def joinSep (sep : String) : List String → String
  | [] => ""
  | [x] => x
  | x :: xs => x ++ sep ++ joinSep sep xs

/-! ## Model of the Go `net` package (external library used by police.go) -/

/-- Numeric value of a hex digit character. -/
def hexDigitVal (c : Char) : Nat :=
  if c.isDigit then c.toNat - '0'.toNat
  else if 'a' ≤ c && c ≤ 'f' then c.toNat - 'a'.toNat + 10
  else c.toNat - 'A'.toNat + 10

/-- Whether a character is a hexadecimal digit. -/
def isHexChar (c : Char) : Bool :=
  c.isDigit || ('a' ≤ c && c ≤ 'f') || ('A' ≤ c && c ≤ 'F')

/-- Value of a decimal digit string (assumes all chars are digits). -/
def decDigitsVal (cs : List Char) : Nat :=
  cs.foldl (fun a c => a * 10 + (c.toNat - '0'.toNat)) 0

/-- Value of a hex digit string (assumes all chars are hex digits). -/
def hexDigitsVal (cs : List Char) : Nat :=
  cs.foldl (fun a c => a * 16 + hexDigitVal c) 0

/-- One dotted-decimal field of an IPv4 address: 1-3 decimal digits,
value at most 255, no leading zero (Go 1.17+ `parseIPv4` rules). -/
def v4FieldOk (cs : List Char) : Bool :=
  decide (1 ≤ cs.length) && cs.all Char.isDigit && decide (decDigitsVal cs ≤ 255)
    && (cs.length == 1 || cs.head? != some '0')

/-- Go `parseIPv4` on characters: dotted-quad parsing, the four octets. -/
def parseIPv4Chars (cs : List Char) : Option (List Nat) :=
  let fs := splitOnChar '.' cs
  if fs.length == 4 && fs.all v4FieldOk then
    some (fs.map decDigitsVal)
  else none

/-- Go `parseIPv4`. -/
def parseIPv4 (s : String) : Option (List Nat) :=
  parseIPv4Chars s.toList

/-- The 16-byte IPv4-in-IPv6 form Go's `net.IPv4` constructor produces. -/
def v4InV6 (a b c d : Nat) : List Nat :=
  [0, 0, 0, 0, 0, 0, 0, 0, 0, 0, 0xff, 0xff, a, b, c, d]

/-- One hex group of an IPv6 address: 1-4 hex digits. -/
def v6GroupOk (cs : List Char) : Bool :=
  decide (1 ≤ cs.length) && decide (cs.length ≤ 4) && cs.all isHexChar

/-- Bytes of a list of colon-separated IPv6 fields.  The final field may be
an embedded dotted-quad IPv4 address when `allowV4Tail` is true (Go only
accepts an embedded IPv4 part at the very end of the address). -/
def v6FieldsBytes : List (List Char) → Bool → Option (List Nat)
  | [], _ => some []
  | [f], allowV4Tail =>
    if f.any (· == '.') then
      if allowV4Tail then parseIPv4Chars f else none
    else if v6GroupOk f then
      let v := hexDigitsVal f
      some [v / 256, v % 256]
    else none
  | f :: rest, allowV4Tail =>
    if v6GroupOk f then
      match v6FieldsBytes rest allowV4Tail with
      | some bs =>
        let v := hexDigitsVal f
        some ([v / 256, v % 256] ++ bs)
      | none => none
    else none

/-- Go `parseIPv6`: at most one `::`, groups of 1-4 hex digits, optional
embedded IPv4 tail, zone suffixes rejected; yields 16 bytes. -/
def parseIPv6Chars (cs : List Char) : Option (List Nat) :=
  if cs.any (· == '%') then none else
  match splitDoubleColon cs with
  | [one] =>
    match v6FieldsBytes (splitOnChar ':' one) true with
    | some bs => if bs.length == 16 then some bs else none
    | none => none
  | [l, r] =>
    let lf := if l.isEmpty then [] else splitOnChar ':' l
    let rf := if r.isEmpty then [] else splitOnChar ':' r
    match v6FieldsBytes lf false, v6FieldsBytes rf true with
    | some lb, some rb =>
      if lb.length + rb.length < 16 then
        some (lb ++ List.replicate (16 - lb.length - rb.length) 0 ++ rb)
      else none
    | _, _ => none
  | _ => none

/-- Go `parseIPv6`. -/
def parseIPv6 (s : String) : Option (List Nat) :=
  parseIPv6Chars s.toList

/-- Go `net.ParseIP`: routes on the first `.` or `:` encountered; a parsed
address is always held in 16-byte form (IPv4 as IPv4-in-IPv6). -/
def goParseIP (s : String) : Option (List Nat) :=
  match s.toList.find? (fun c => c == '.' || c == ':') with
  | some c =>
    if c == '.' then
      match parseIPv4 s with
      | some [a, b, cc, d] => some (v4InV6 a b cc d)
      | _ => none
    else parseIPv6 s
  | none => none

/-- Go `IP.To4 != nil` for a 16-byte address: the IPv4-in-IPv6 prefix. -/
def isV4Mapped (b : List Nat) : Bool :=
  b.length == 16 && (b.take 10).all (· == 0)
    && b.getD 10 0 == 255 && b.getD 11 0 == 255

/-- Dotted-quad rendering of four octets. -/
def dottedQuad (bs : List Nat) : String :=
  joinSep "." (bs.map Nat.repr)

/-- Lowercase hex rendering without leading zeros (Go `appendHex`). -/
def natToHexStr (n : Nat) : String := String.mk (Nat.toDigits 16 n)

/-- 16-bit groups of a 16-byte IPv6 address. -/
def bytesToGroups : List Nat → List Nat
  | a :: b :: rest => (a * 256 + b) :: bytesToGroups rest
  | _ => []

/-- Length of the leading run of zero groups. -/
def zeroRunLen : List Nat → Nat
  | 0 :: rest => 1 + zeroRunLen rest
  | _ => 0

/-- Leftmost longest run of zero groups (start index, length), as in Go's
`IP.String`: a later run replaces the best only when strictly longer. -/
def bestZeroRun : List Nat → Option (Nat × Nat)
  | [] => none
  | g :: rest =>
    let here := if g == 0 then 1 + zeroRunLen rest else 0
    match bestZeroRun rest with
    | none => if 0 < here then some (0, here) else none
    | some (s, l) =>
      if l ≤ here then some (0, here) else some (s + 1, l)

/-- RFC 5952 rendering of 8 groups, with `::` for the longest zero run of
length at least two (Go `IP.String` for a non-v4-mapped address). -/
def v6GroupsString (gs : List Nat) : String :=
  match bestZeroRun gs with
  | some (s, l) =>
    if 2 ≤ l then
      joinSep ":" ((gs.take s).map natToHexStr) ++ "::"
        ++ joinSep ":" ((gs.drop (s + l)).map natToHexStr)
    else joinSep ":" (gs.map natToHexStr)
  | none => joinSep ":" (gs.map natToHexStr)

/-- Go `IP.String`: dotted quad for 4-byte or v4-mapped addresses, RFC 5952
text otherwise. -/
def ipToString (b : List Nat) : String :=
  if b.length == 4 then dottedQuad b
  else if isV4Mapped b then dottedQuad (b.drop 12)
  else if b.length == 16 then v6GroupsString (bytesToGroups b)
  else ""

/-- The byte of a CIDR mask covering `bits` leading one bits (`bits ≤ 8`). -/
def maskByte (bits : Nat) : Nat := 256 - 2 ^ (8 - bits)

/-- Apply an `n`-bit network mask to address bytes (Go `IP.Mask`). -/
def maskBytes (bs : List Nat) (n : Nat) : List Nat :=
  List.zipWith (fun i x => x &&& maskByte (min 8 (n - 8 * i)))
    (List.range bs.length) bs

/-- Model of Go `*net.IPNet` as produced by `ParseCIDR`: the masked network
address (4 bytes for IPv4, 16 for IPv6) and the prefix length. -/
structure GoIPNet where
  ip : List Nat
  maskBits : Nat
deriving DecidableEq, Repr

/-- Go `IPNet.String`: network address text, a slash, the prefix length. -/
def ipNetString (n : GoIPNet) : String :=
  ipToString n.ip ++ "/" ++ Nat.repr n.maskBits

/-- Go `net.ParseCIDR`: split at the first slash (the prefix-length part
must be all decimal digits, so a second slash fails it, as in Go's `dtoi`),
parse the address (IPv4 first, then IPv6), and return the address together
with the masked network.  The returned address is in 16-byte form,
mirroring Go's `parseIPv4` constructor. -/
def goParseCIDR (s : String) : Option (List Nat × GoIPNet) :=
  let cs := s.toList
  if cs.any (· == '/') then
    let addr := cs.takeWhile (fun c => !(c == '/'))
    let mcs := cs.drop (addr.length + 1)
    if decide (1 ≤ mcs.length) && mcs.all Char.isDigit then
      let n := decDigitsVal mcs
      match parseIPv4Chars addr with
      | some [a, b, c, d] =>
        if n ≤ 32 then some (v4InV6 a b c d, ⟨maskBytes [a, b, c, d] n, n⟩)
        else none
      | _ =>
        match parseIPv6Chars addr with
        | some bs => if n ≤ 128 then some (bs, ⟨maskBytes bs n, n⟩) else none
        | none => none
    else none
  else none

/-! ## Model of Go `crypto/sha1` and `[]byte(string)` (external library) -/

/-- UTF-8 encoding of one character, as Go's `[]byte(string)` sees it. -/
def utf8Enc (c : Char) : List Nat :=
  let n := c.toNat
  if n < 0x80 then [n]
  else if n < 0x800 then [0xC0 ||| (n >>> 6), 0x80 ||| (n &&& 0x3F)]
  else if n < 0x10000 then
    [0xE0 ||| (n >>> 12), 0x80 ||| ((n >>> 6) &&& 0x3F), 0x80 ||| (n &&& 0x3F)]
  else
    [0xF0 ||| (n >>> 18), 0x80 ||| ((n >>> 12) &&& 0x3F),
     0x80 ||| ((n >>> 6) &&& 0x3F), 0x80 ||| (n &&& 0x3F)]

/-- UTF-8 bytes of a string. -/
def utf8Bytes (s : String) : List Nat := (s.toList.map utf8Enc).flatten

/-- 32-bit left rotation. -/
def rotl32 (x k : Nat) : Nat := ((x <<< k) ||| (x >>> (32 - k))) % 4294967296

/-- SHA-1 message padding: `0x80`, zeros to 56 mod 64, 64-bit bit length. -/
def sha1Pad (msg : List Nat) : List Nat :=
  let bitLen := msg.length * 8
  let z := (64 + 56 - (msg.length + 1) % 64) % 64
  msg ++ [0x80] ++ List.replicate z 0
    ++ (List.range 8).map (fun i => (bitLen >>> (8 * (7 - i))) % 256)

/-- Split a padded message into 64-byte blocks. -/
def sha1Blocks (bs : List Nat) : List (List Nat) :=
  (List.range (bs.length / 64)).map (fun i => (bs.drop (64 * i)).take 64)

/-- The sixteen 32-bit big-endian words of one block. -/
def blockWords (b : List Nat) : List Nat :=
  (List.range 16).map (fun i =>
    (b.getD (4 * i) 0) * 16777216 + (b.getD (4 * i + 1) 0) * 65536
      + (b.getD (4 * i + 2) 0) * 256 + b.getD (4 * i + 3) 0)

/-- Extend 16 words to the 80-word SHA-1 schedule. -/
def extendWords (ws : List Nat) : List Nat :=
  (List.range 64).foldl (fun acc _ =>
    let i := acc.length
    acc ++ [rotl32 ((acc.getD (i - 3) 0) ^^^ (acc.getD (i - 8) 0)
      ^^^ (acc.getD (i - 14) 0) ^^^ (acc.getD (i - 16) 0)) 1]) ws

/-- SHA-1 round function. -/
def sha1F (t b c d : Nat) : Nat :=
  if t < 20 then (b &&& c) ||| ((b ^^^ 0xFFFFFFFF) &&& d)
  else if t < 40 then b ^^^ c ^^^ d
  else if t < 60 then (b &&& c) ||| (b &&& d) ||| (c &&& d)
  else b ^^^ c ^^^ d

/-- SHA-1 round constants. -/
def sha1K (t : Nat) : Nat :=
  if t < 20 then 0x5A827999
  else if t < 40 then 0x6ED9EBA1
  else if t < 60 then 0x8F1BBCDC
  else 0xCA62C1D6

/-- One SHA-1 compression step over a five-word state. -/
def sha1Round (ws : List Nat) (st : Nat × Nat × Nat × Nat × Nat) (t : Nat) :
    Nat × Nat × Nat × Nat × Nat :=
  match st with
  | (a, b, c, d, e) =>
    let temp := (rotl32 a 5 + sha1F t b c d + e + sha1K t + ws.getD t 0) % 4294967296
    (temp, a, rotl32 b 30, c, d)

/-- SHA-1 compression of one 64-byte block into the running digest. -/
def sha1Block (h : List Nat) (b : List Nat) : List Nat :=
  let ws := extendWords (blockWords b)
  let h0 := h.getD 0 0
  let h1 := h.getD 1 0
  let h2 := h.getD 2 0
  let h3 := h.getD 3 0
  let h4 := h.getD 4 0
  let r := (List.range 80).foldl (sha1Round ws) (h0, h1, h2, h3, h4)
  [(h0 + r.1) % 4294967296, (h1 + r.2.1) % 4294967296, (h2 + r.2.2.1) % 4294967296,
   (h3 + r.2.2.2.1) % 4294967296, (h4 + r.2.2.2.2) % 4294967296]

/-- The five 32-bit words of the SHA-1 digest of a byte string. -/
def sha1Words (msg : List Nat) : List Nat :=
  (sha1Blocks (sha1Pad msg)).foldl sha1Block
    [0x67452301, 0xEFCDAB89, 0x98BADCFE, 0x10325476, 0xC3D2E1F0]

/-- Eight lowercase hex characters of one 32-bit word. -/
def word8Hex (w : Nat) : List Char :=
  (List.range 8).map (fun i => Nat.digitChar ((w >>> (4 * (7 - i))) % 16))

/-- The 40 lowercase hex characters of `sha1.Sum`, as printed by
Go's `fmt.Sprintf("%x", ...)`. -/
def sha1HexChars (msg : List Nat) : List Char :=
  ((sha1Words msg).map word8Hex).flatten

/-! ## police.go: set-name derivation, findDiff, getDstCIDR, parseMark -/

/-- police.go `formatIPSetName`: the prefix followed by the first
`31 - len(prefix)` hex characters of the SHA-1 of the name. -/
def formatIPSetName (pfx name : String) : String :=
  let hash := sha1HexChars (utf8Bytes name)
  pfx ++ String.mk (hash.take (31 - pfx.length))

/-- police.go `IPKind`. -/
inductive IPKind where
  | src
  | dst
deriving DecidableEq, Repr

/-- police.go `IPStack`. -/
inductive IPStack where
  | v4
  | v6
deriving DecidableEq, Repr

/-- police.go `SetName`. -/
structure SetName where
  name : String
  stack : IPStack
  kind : IPKind
deriving DecidableEq, Repr

/-- police.go `buildIPSetNamesByPolicy`. -/
def buildIPSetNamesByPolicy (ns name : String) (enableIPv4 enableIPv6 : Bool) :
    List SetName :=
  let key := if ns != "" then ns ++ "-" ++ name else name
  (if enableIPv4 then
    [⟨formatIPSetName "egress-src-v4-" key, .v4, .src⟩,
     ⟨formatIPSetName "egress-dst-v4-" key, .v4, .dst⟩]
   else [])
  ++
  (if enableIPv6 then
    [⟨formatIPSetName "egress-src-v6-" key, .v6, .src⟩,
     ⟨formatIPSetName "egress-dst-v6-" key, .v6, .dst⟩]
   else [])

/-- police.go `findDiff` normalization of one new entry: strip a `/32`
suffix; canonicalize a parsable address before a `/128` suffix via
`ParseIP` and `String`; rewrite any other parsable CIDR to its canonical
network form; leave everything else unchanged. -/
def normalizeEntry (s : String) : String :=
  if strEndsWith s "/32" then strDropRight s 3
  else if strEndsWith s "/128" then
    match goParseIP (strDropRight s 4) with
    | some ip => ipToString ip
    | none => s
  else
    match goParseCIDR s with
    | some (_, cidr) => ipNetString cidr
    | none => s

/-- police.go `findDiff`: normalize the new list, then compute the two
one-sided differences through membership maps, preserving order and
multiplicity as the Go loops do. -/
def findDiff (oldList newList : List String) : List String × List String :=
  let newCopy := newList.map normalizeEntry
  let toAdd := newCopy.foldl
    (fun acc s => if oldList.contains s then acc else acc ++ [s]) []
  let toDel := oldList.foldl
    (fun acc s => if newCopy.contains s then acc else acc ++ [s]) []
  (toAdd, toDel)

/-- police.go `getDstCIDR`: parse every entry as a CIDR (an unparsable
entry fails the whole call) and collect the canonical network strings by
family, the Go loop translated to structural recursion. -/
def getDstCIDR : List String → Except String (List String × List String)
  | [] => .ok ([], [])
  | item :: rest =>
    match goParseCIDR item with
    | none => .error ("invalid CIDR address: " ++ item)
    | some (ip, ipNet) =>
      match getDstCIDR rest with
      | .error e => .error e
      | .ok (v4, v6) =>
        if isV4Mapped ip then .ok (ipNetString ipNet :: v4, v6)
        else .ok (v4, ipNetString ipNet :: v6)

/-- Go `strings.ReplaceAll(mark, "0x", "")` on the character list. -/
def stripHexMarker : List Char → List Char
  | '0' :: 'x' :: rest => stripHexMarker rest
  | c :: rest => c :: stripHexMarker rest
  | [] => []

/-- Go `strconv.ParseInt(s, 16, 32)` followed by the `uint32` conversion in
police.go `parseMark`: optional sign, nonempty hex digits, magnitude within
the signed 32-bit range, negative values wrapped modulo `2^32`. -/
def parseMark (mark : String) : Except String Nat :=
  let cs := stripHexMarker mark.toList
  let (neg, digs) := match cs with
    | '-' :: rest => (true, rest)
    | '+' :: rest => (false, rest)
    | l => (false, l)
  if digs.isEmpty || !(digs.all isHexChar) then .error "parse error"
  else
    let v := hexDigitsVal digs
    if neg then
      if v ≤ 2147483648 then .ok ((4294967296 - v) % 4294967296)
      else .error "value out of range"
    else
      if v ≤ 2147483647 then .ok v else .error "value out of range"

/-! ## Model of the external iptables backend (pkg/iptables), per its
contract: a match-criteria builder, action values, and per-(table, family)
chain snapshots with `UpdateChain` (replace an owned chain) and
`InsertOrAppendRules` (idempotent placement in a built-in chain, where a
rule equal to an existing one is not duplicated). -/

/-- Match criteria accumulated by the builder methods used in police.go:
`SourceIPSet`, `DestIPSet`, `NotDestIPSet`, `CTDirectionOriginal`,
`MarkMatchesWithMask`. -/
structure MatchCriteria where
  srcIPSet : Option String := none
  dstIPSet : Option String := none
  notDstIPSet : Option String := none
  ctOrigDirection : Option String := none
  markMatch : Option (Nat × Nat) := none
deriving DecidableEq, Repr

def MatchCriteria.sourceIPSet (m : MatchCriteria) (n : String) : MatchCriteria :=
  { m with srcIPSet := some n }

def MatchCriteria.destIPSet (m : MatchCriteria) (n : String) : MatchCriteria :=
  { m with dstIPSet := some n }

def MatchCriteria.notDestIPSet (m : MatchCriteria) (n : String) : MatchCriteria :=
  { m with notDstIPSet := some n }

def MatchCriteria.ctDirectionOriginal (m : MatchCriteria) (d : String) : MatchCriteria :=
  { m with ctOrigDirection := some d }

def MatchCriteria.markMatchesWithMask (m : MatchCriteria) (mark mask : Nat) : MatchCriteria :=
  { m with markMatch := some (mark, mask) }

/-- iptables `DirectionOriginal` constant. -/
def DirectionOriginal : String := "ORIGINAL"

/-- The iptables actions used in police.go. -/
inductive RuleAction where
  | accept
  | jump (target : String)
  | setMaskedMark (mark mask : Nat)
  | snat (toAddr : String)
deriving DecidableEq, Repr

/-- iptables `Rule`. -/
structure Rule where
  mtch : MatchCriteria
  action : RuleAction
  comment : List String
deriving DecidableEq, Repr

/-- A per-(table, family) snapshot of engine-visible chains. -/
structure Table where
  name : String
  ipVersion : Nat
  chains : List (String × List Rule)
deriving DecidableEq, Repr

/-- First-match lookup of a chain's rules (absent chain reads as empty). -/
def lookupChain : List (String × List Rule) → String → List Rule
  | [], _ => []
  | c :: rest, chain => if c.1 == chain then c.2 else lookupChain rest chain

/-- Rules currently recorded for a chain (absent chain reads as empty). -/
def Table.getChain (t : Table) (chain : String) : List Rule :=
  lookupChain t.chains chain

/-- Write a chain's rule list into the snapshot. -/
def Table.setChain (t : Table) (chain : String) (rules : List Rule) : Table :=
  if t.chains.any (fun c => c.1 == chain) then
    { t with chains := t.chains.map (fun c => if c.1 == chain then (chain, rules) else c) }
  else
    { t with chains := t.chains ++ [(chain, rules)] }

/-- iptables `UpdateChain`: replace the owned chain's rules. -/
def Table.updateChain (t : Table) (chain : String) (rules : List Rule) : Table :=
  t.setChain chain rules

/-- Place each of `rules` into `cur` unless an equal rule is present. -/
def mergeRules (cur rules : List Rule) : List Rule :=
  rules.foldl (fun cur r => if cur.contains r then cur else cur ++ [r]) cur

/-- iptables `InsertOrAppendRules`: place each rule into a built-in chain
unless an equal rule is already present (idempotence by rule identity). -/
def Table.insertOrAppendRules (t : Table) (chain : String) (rules : List Rule) : Table :=
  t.setChain chain (mergeRules (t.getChain chain) rules)

/-! ## police.go rule builders -/

/-- police.go constant `EgressClusterCIDRIPv4`. -/
def EgressClusterCIDRIPv4 : String := "egress-cluster-cidr-ipv4"

/-- police.go constant `EgressClusterCIDRIPv6`. -/
def EgressClusterCIDRIPv6 : String := "egress-cluster-cidr-ipv6"

/-- police.go `IP` (an EIP pair). -/
structure IPPair where
  v4 : String
  v6 : String
deriving DecidableEq, Repr

/-- police.go `buildEipRule`: nil when both EIP strings are empty; otherwise
an SNAT rule whose destination match is the policy's dst set, or the negated
cluster-ignore set when the policy has no dest subnets. -/
def buildEipRule (policyName : String) (eip : IPPair) (version : Nat)
    (isIgnoreInternalCIDR : Bool) : Option Rule :=
  if eip.v4 == "" && eip.v6 == "" then none
  else
    let tmp := if version == 6 then "v6-" else "v4-"
    let ip := if version == 6 then eip.v6 else eip.v4
    let ignoreName := if version == 6 then EgressClusterCIDRIPv6 else EgressClusterCIDRIPv4
    let srcName := formatIPSetName ("egress-src-" ++ tmp) policyName
    let dstName := formatIPSetName ("egress-dst-" ++ tmp) policyName
    let matchCriteria :=
      if isIgnoreInternalCIDR then
        (({} : MatchCriteria).sourceIPSet srcName).notDestIPSet ignoreName
          |>.ctDirectionOriginal DirectionOriginal
      else
        (({} : MatchCriteria).sourceIPSet srcName).destIPSet dstName
          |>.ctDirectionOriginal DirectionOriginal
    some ⟨matchCriteria, .snat ip, []⟩

/-- police.go `buildPolicyRule` (mangle mark rule for one policy). -/
def buildPolicyRule (policyName : String) (mark : Nat) (version : Nat)
    (isIgnoreInternalCIDR : Bool) : Rule :=
  let tmp := if version == 6 then "v6-" else "v4-"
  let ignoreInternalCIDRName :=
    if version == 6 then EgressClusterCIDRIPv6 else EgressClusterCIDRIPv4
  let srcName := formatIPSetName ("egress-src-" ++ tmp) policyName
  let dstName := formatIPSetName ("egress-dst-" ++ tmp) policyName
  let matchCriteria :=
    if isIgnoreInternalCIDR then
      (({} : MatchCriteria).sourceIPSet srcName).notDestIPSet ignoreInternalCIDRName
        |>.ctDirectionOriginal DirectionOriginal
    else
      (({} : MatchCriteria).sourceIPSet srcName).destIPSet dstName
        |>.ctDirectionOriginal DirectionOriginal
  ⟨matchCriteria, .setMaskedMark mark 0xffffffff, []⟩

/-- The accept-on-full-mark static rule. -/
def acceptOnMark (base : Nat) : Rule :=
  ⟨({} : MatchCriteria).markMatchesWithMask base 0xffffffff, .accept, []⟩

/-- The mangle FORWARD re-marking static rule. -/
def remarkRule (base : Nat) : Rule :=
  ⟨({} : MatchCriteria).markMatchesWithMask base 0xff000000,
   .setMaskedMark base 0xffffffff, []⟩

/-- The jump into the engine's mark chain. -/
def jumpMarkRule : Rule := ⟨{}, .jump "EGRESSGATEWAY-MARK-REQUEST", []⟩

/-- The jump into the engine's SNAT chain. -/
def jumpSnatRule : Rule := ⟨{}, .jump "EGRESSGATEWAY-SNAT-EIP", []⟩

/-- police.go `buildNatStaticRule`. -/
def buildNatStaticRule (base : Nat) : List (String × List Rule) :=
  [("POSTROUTING", [acceptOnMark base, jumpSnatRule])]

/-- police.go `buildFilterStaticRule`. -/
def buildFilterStaticRule (base : Nat) : List (String × List Rule) :=
  [("FORWARD", [acceptOnMark base]),
   ("OUTPUT", [acceptOnMark base])]

/-- police.go `buildMangleStaticRule`. -/
def buildMangleStaticRule (base : Nat) : List (String × List Rule) :=
  [("FORWARD", [remarkRule base]),
   ("POSTROUTING", [acceptOnMark base]),
   ("PREROUTING", [jumpMarkRule])]

/-! ## The declarative cluster view and the agent state

`World` holds the resources the reconciler reads through its Kubernetes
client: gateway statuses, `EgressNode` marks, policy specs and endpoint
slices.  A `Get` that would return `NotFound` is modelled by an absent
entry; transient client errors are not modelled.  `AgentState` holds the
reconciler's in-memory ipset cache (`r.ipsetMap`), the kernel's ipsets,
and the per-(table, family) chain snapshots; `Apply()` commits the
snapshots and is modelled as error-free. -/

/-- egressv1 `Policy` (a reference by namespace and name). -/
structure GoPolicy where
  ns : String
  name : String
deriving DecidableEq, Repr

/-- One EIP of a gateway node, with the policies bound to it. -/
structure GwEip where
  ipv4 : String
  ipv6 : String
  policies : List GoPolicy
deriving DecidableEq, Repr

/-- One entry of a gateway's `Status.NodeList`. -/
structure GwNode where
  name : String
  eips : List GwEip
deriving DecidableEq, Repr

/-- An `EgressGateway` with its status node list. -/
structure Gateway where
  name : String
  nodeList : List GwNode
deriving DecidableEq, Repr

/-- One endpoint of an egress endpoint slice. -/
structure Endpoint where
  node : String
  ipv4 : List String
  ipv6 : List String
deriving DecidableEq, Repr

/-- An egress (cluster) endpoint slice labelled with its policy name. -/
structure EpSlice where
  policyName : String
  clusterScoped : Bool
  deleted : Bool
  endpoints : List Endpoint
deriving DecidableEq, Repr

/-- The cluster state visible to the reconciler. -/
structure World where
  gateways : List Gateway
  egressNodeMarks : List (String × String)
  policySpecs : List (GoPolicy × List String)
  endpointSlices : List EpSlice
deriving DecidableEq, Repr

/-- The configuration fields of `config.Config` that police.go reads. -/
structure Cfg where
  nodeName : String
  enableIPv4 : Bool
  enableIPv6 : Bool
  mark : String
deriving DecidableEq, Repr

/-- police.go `PolicyCommon`. -/
structure PolicyCommon where
  nodeName : String
  destSubnet : List String
  ip : IPPair
deriving DecidableEq, Repr

/-- Store into a Go map modelled as an association list: overwrite the
value when the key is present, append otherwise.  (Go map iteration order
is unspecified; the model fixes insertion order, and the theorems below
depend only on membership and per-key counts.) -/
def mapStore (m : List (GoPolicy × PolicyCommon)) (k : GoPolicy) (v : PolicyCommon) :
    List (GoPolicy × PolicyCommon) :=
  if m.any (fun e => e.1 == k) then
    m.map (fun e => if e.1 == k then (k, v) else e)
  else m ++ [(k, v)]

/-- Lookup in the policy map. -/
def mapLoad (m : List (GoPolicy × PolicyCommon)) (k : GoPolicy) : Option PolicyCommon :=
  (m.find? (fun e => e.1 == k)).map (·.2)

/-- Lookup an `EgressNode`'s `Status.Mark` by node name (`none` = NotFound). -/
def lookupStr (m : List (String × String)) (k : String) : Option String :=
  (m.find? (fun e => e.1 == k)).map (·.2)

/-- `Spec.DestSubnet` of a policy CRD; a NotFound `Get` leaves the zero
object, whose `DestSubnet` is nil. -/
def specDestSubnet (w : World) (p : GoPolicy) : List String :=
  ((w.policySpecs.find? (fun e => e.1 == p)).map (·.2)).getD []

/-- initApplyPolicy lines 90-111: partition the policies of every gateway's
status node list into the SNAT map (EIP on the local node, with the EIP
recorded) and the mark map (EIP on another node). -/
def collectPolicies (w : World) (localNode : String) :
    List (GoPolicy × PolicyCommon) × List (GoPolicy × PolicyCommon) :=
  w.gateways.foldl (fun acc gw =>
    gw.nodeList.foldl (fun acc nl =>
      if nl.name == localNode then
        (nl.eips.foldl (fun s e =>
            e.policies.foldl (fun s p => mapStore s p ⟨nl.name, [], ⟨e.ipv4, e.ipv6⟩⟩) s)
          acc.1,
         acc.2)
      else
        (acc.1,
         nl.eips.foldl (fun u e =>
             e.policies.foldl (fun u p => mapStore u p ⟨nl.name, [], ⟨"", ""⟩⟩) u)
           acc.2))
      acc)
    ([], [])

/-- The ipset backend calls that the reconciler issues. -/
inductive BackendCall where
  | destroySet (name : String)
deriving DecidableEq, Repr

/-- Kernel ipsets: set name to member list. -/
abbrev Kernels := List (String × List String)

/-- ipset `CreateSet` with `ignoreExistErr = true`. -/
def kernelCreateSet (k : Kernels) (name : String) : Kernels :=
  if k.any (fun s => s.1 == name) then k else k ++ [(name, [])]

/-- ipset `ListEntries` (`none` models the "set does not exist" error). -/
def kernelListEntries (k : Kernels) (name : String) : Option (List String) :=
  (k.find? (fun s => s.1 == name)).map (·.2)

/-- ipset `AddEntry` (`none` models a backend error on an absent set; an
already-present member is swallowed, as the caller ignores
`ErrAlreadyAddedEntry`). -/
def kernelAddEntry (k : Kernels) (name entry : String) : Option Kernels :=
  match kernelListEntries k name with
  | none => none
  | some es =>
    if es.contains entry then some k
    else some (k.map (fun s => if s.1 == name then (name, es ++ [entry]) else s))

/-- ipset `DelEntry` (`none` models a backend error on an absent set or
member). -/
def kernelDelEntry (k : Kernels) (name entry : String) : Option Kernels :=
  match kernelListEntries k name with
  | none => none
  | some es =>
    if es.contains entry then
      some (k.map (fun s => if s.1 == name then (name, es.filter (fun e => !(e == entry))) else s))
    else none

/-- The reconciler's state: ipset cache, kernel ipsets, chain snapshots. -/
structure AgentState where
  ipsetCache : List String
  kernelSets : Kernels
  filterTables : List Table
  mangleTables : List Table
  natTables : List Table
deriving DecidableEq, Repr

/-- police.go `createIPSet`: skip when cached or when the set's family is
disabled; otherwise create the kernel set (ignoring "already exists") and
record it in the cache.  The backend call cannot fail in the model, so the
Go error path does not arise. -/
def createIPSet (cfg : Cfg) (st : AgentState) (sn : SetName) : AgentState :=
  if st.ipsetCache.contains sn.name then st
  else if sn.stack == IPStack.v4 && !cfg.enableIPv4 then st
  else if sn.stack == IPStack.v6 && !cfg.enableIPv6 then st
  else
    { st with kernelSets := kernelCreateSet st.kernelSets sn.name,
              ipsetCache := st.ipsetCache ++ [sn.name] }

/-- police.go `removeIPSet`: only when the name is cached, call `DestroySet`
(whose error - the set being absent from the kernel - is only logged) and
delete the cache entry; otherwise do nothing.  Returns the backend calls
made.  The function propagates no error. -/
def removeIPSet (st : AgentState) (name : String) : AgentState × List BackendCall :=
  if st.ipsetCache.contains name then
    ({ st with
        kernelSets := st.kernelSets.filter (fun s => !(s.1 == name)),
        ipsetCache := st.ipsetCache.filter (fun n => !(n == name)) },
     [.destroySet name])
  else (st, [])

/-- police.go `getPolicySrcIPs`: endpoint IPs of the non-deleted slices
labelled with the policy name, in the matching scope, kept by the filter. -/
def getPolicySrcIPs (w : World) (policyNs policyName : String)
    (filt : Endpoint → Bool) : List String × List String :=
  (w.endpointSlices.filter
      (fun s => s.policyName == policyName && (s.clusterScoped == (policyNs == "")))).foldl
    (fun acc sl =>
      if sl.deleted then acc
      else sl.endpoints.foldl
        (fun acc e => if filt e then (acc.1 ++ e.ipv4, acc.2 ++ e.ipv6) else acc) acc)
    ([], [])

/-- The per-set diff of `updatePolicyIPSet`: list the old entries (a
missing set reads as empty, the "does not exist" error being swallowed)
and diff them against the desired source or destination list of the set's
family. -/
def computeSetDiff (cfg : Cfg) (st : AgentState) (src dst : List String × List String)
    (sn : SetName) : List String × List String :=
  let oldIPList := (kernelListEntries st.kernelSets sn.name).getD []
  match sn.kind with
  | .src =>
    if sn.stack == IPStack.v4 && cfg.enableIPv4 then findDiff oldIPList src.1
    else if cfg.enableIPv6 then findDiff oldIPList src.2
    else ([], [])
  | .dst =>
    if sn.stack == IPStack.v4 && cfg.enableIPv4 then findDiff oldIPList dst.1
    else if cfg.enableIPv6 then findDiff oldIPList dst.2
    else ([], [])

/-- Add a list of members to one kernel set, failing on an absent set. -/
def addEntries (name : String) : Kernels → List String → Except String Kernels
  | k, [] => .ok k
  | k, ip :: rest =>
    match kernelAddEntry k name ip with
    | none => .error "ipset add: set does not exist"
    | some k2 => addEntries name k2 rest

/-- Delete a list of members from one kernel set, failing on an absent set
or member. -/
def delEntries (name : String) : Kernels → List String → Except String Kernels
  | k, [] => .ok k
  | k, ip :: rest =>
    match kernelDelEntry k name ip with
    | none => .error "ipset del failed"
    | some k2 => delEntries name k2 rest

/-- The add loop of `updatePolicyIPSet`: sets absent from the cache are
skipped (`ipsetMap.Load` fails). -/
def foldAdds : AgentState → List (String × List String × List String) →
    Except String AgentState
  | st, [] => .ok st
  | st, (name, toAdd, _) :: rest =>
    if st.ipsetCache.contains name then
      match addEntries name st.kernelSets toAdd with
      | .error e => .error e
      | .ok k2 => foldAdds { st with kernelSets := k2 } rest
    else foldAdds st rest

/-- The delete loop of `updatePolicyIPSet` (no cache check in the source). -/
def foldDels : AgentState → List (String × List String × List String) →
    Except String AgentState
  | st, [] => .ok st
  | st, (name, _, toDel) :: rest =>
    match delEntries name st.kernelSets toDel with
    | .error e => .error e
    | .ok k2 => foldDels { st with kernelSets := k2 } rest

/-- police.go `updatePolicyIPSet`: compute source and destination lists,
ensure the four family-enabled sets exist, diff each set against its
desired members, then perform all additions before all removals.  (The Go
add/delete loops iterate maps in unspecified order; the model iterates in
set-name order, additions still strictly before removals.) -/
def updatePolicyIPSet (w : World) (cfg : Cfg) (st : AgentState)
    (policyNs policyName : String) (isEipNodeSet : Bool) (destSubnet : List String) :
    Except String AgentState :=
  let src := getPolicySrcIPs w policyNs policyName
    (fun e => e.node == cfg.nodeName || isEipNodeSet)
  match getDstCIDR destSubnet with
  | .error e => .error e
  | .ok dst =>
    let setNames := buildIPSetNamesByPolicy policyNs policyName cfg.enableIPv4 cfg.enableIPv6
    let st1 := setNames.foldl (createIPSet cfg) st
    let diffs := setNames.map (fun sn => (sn.name, computeSetDiff cfg st1 src dst sn))
    match foldAdds st1 diffs with
    | .error e => .error e
    | .ok st2 => foldDels st2 diffs

/-- The chain-comment key of a policy (`name`, or `namespace-name`). -/
def policyKeyName (p : GoPolicy) : String :=
  if p.ns != "" then p.ns ++ "-" ++ p.name else p.name

/-- initApplyPolicy lines 113-167: for each partitioned policy, read its
`DestSubnet` from the CRD (NotFound leaves it nil) and reconcile its
ipsets; the updated map (the Go code mutates the shared `*PolicyCommon`)
is returned for the chain-building phase. -/
def setPhase (w : World) (cfg : Cfg) (isEip : Bool) :
    AgentState → List (GoPolicy × PolicyCommon) →
    Except String (AgentState × List (GoPolicy × PolicyCommon))
  | st, [] => .ok (st, [])
  | st, (p, val) :: rest =>
    let val2 := { val with destSubnet := specDestSubnet w p }
    match updatePolicyIPSet w cfg st p.ns p.name isEip val2.destSubnet with
    | .error e => .error e
    | .ok st2 =>
      match setPhase w cfg isEip st2 rest with
      | .error e => .error e
      | .ok (st3, rest2) => .ok (st3, (p, val2) :: rest2)

/-- initApplyPolicy lines 190-215: the mark rules of one mangle table.  A
policy whose EIP node has no `EgressNode` object is skipped with a warning;
a malformed node mark fails the whole pass. -/
def mangleChainRules (w : World) (version : Nat) :
    List (GoPolicy × PolicyCommon) → Except String (List Rule)
  | [] => .ok []
  | (p, val) :: rest =>
    match lookupStr w.egressNodeMarks val.nodeName with
    | none => mangleChainRules w version rest
    | some markStr =>
      match parseMark markStr with
      | .error e => .error e
      | .ok mark =>
        match mangleChainRules w version rest with
        | .error e => .error e
        | .ok rules =>
          .ok (buildPolicyRule (policyKeyName p) mark version
            (decide (val.destSubnet.length ≤ 0)) :: rules)

/-- initApplyPolicy lines 223-239: the SNAT rules of one nat table. -/
def natChainRules (pairs : List (GoPolicy × PolicyCommon)) (version : Nat) : List Rule :=
  pairs.filterMap (fun pv =>
    buildEipRule (policyKeyName pv.1) pv.2.ip version (decide (pv.2.destSubnet.length ≤ 0)))

/-- Install a chain-to-rules map into every table of a list via
`InsertOrAppendRules`. -/
def applyStatic (tables : List Table) (chainMapRules : List (String × List Rule)) :
    List Table :=
  tables.map (fun t => chainMapRules.foldl (fun t c => t.insertOrAppendRules c.1 c.2) t)

/-- initApplyPolicy lines 189-220: replace every mangle table's
`EGRESSGATEWAY-MARK-REQUEST` chain with the computed mark rules. -/
def manglePolicyPhase (w : World) (pairs : List (GoPolicy × PolicyCommon)) :
    List Table → Except String (List Table)
  | [] => .ok []
  | t :: ts =>
    match mangleChainRules w t.ipVersion pairs with
    | .error e => .error e
    | .ok rules =>
      match manglePolicyPhase w pairs ts with
      | .error e => .error e
      | .ok ts2 => .ok (t.updateChain "EGRESSGATEWAY-MARK-REQUEST" rules :: ts2)

/-- initApplyPolicy lines 222-246 for the nat tables: replace the
`EGRESSGATEWAY-SNAT-EIP` chain and install the static nat rules. -/
def natPhase (tables : List Table) (pairs : List (GoPolicy × PolicyCommon))
    (base : Nat) : List Table :=
  tables.map (fun t =>
    (buildNatStaticRule base).foldl (fun t c => t.insertOrAppendRules c.1 c.2)
      (t.updateChain "EGRESSGATEWAY-SNAT-EIP" (natChainRules pairs t.ipVersion)))

/-- police.go `initApplyPolicy`: list the gateways (an empty list returns
success immediately), partition their policies, reconcile every policy's
ipsets, then rebuild the static glue rules and the two engine-owned chains
and apply all tables. -/
def initApplyPolicy (w : World) (cfg : Cfg) (st : AgentState) :
    Except String AgentState :=
  if w.gateways.isEmpty then .ok st
  else
    let snat0 := (collectPolicies w cfg.nodeName).1
    let unsnat0 := (collectPolicies w cfg.nodeName).2
    match setPhase w cfg false st unsnat0 with
    | .error e => .error e
    | .ok (st1, unsnat) =>
      match setPhase w cfg true st1 snat0 with
      | .error e => .error e
      | .ok (st2, snat) =>
        match parseMark cfg.mark with
        | .error e => .error e
        | .ok baseMark =>
          let filterT := applyStatic st2.filterTables (buildFilterStaticRule baseMark)
          let mangleT := applyStatic
            (st2.mangleTables.map (fun t => t.updateChain "EGRESSGATEWAY-MARK-REQUEST" []))
            (buildMangleStaticRule baseMark)
          match manglePolicyPhase w unsnat mangleT with
          | .error e => .error e
          | .ok mangleT2 =>
            .ok { st2 with
                    filterTables := filterT,
                    mangleTables := mangleT2,
                    natTables := natPhase st2.natTables snat baseMark }

/-- The outcome of the `Get` of the policy CRD in `reconcilePolicy`
(`none` = NotFound). -/
structure PolicyFetch where
  deleting : Bool
  destSubnet : List String
deriving DecidableEq, Repr

/-- police.go `reconcilePolicy`: when the CRD is absent or carries a
deletion timestamp, remove the policy's four set names (both families are
passed as enabled) through `removeIPSet`, ignoring every error, and return
success; otherwise fetch the owning gateway (an absent gateway requeues
with an error), determine whether the policy's EIP node is the local node,
and reconcile the policy's ipsets. -/
def reconcilePolicy (w : World) (cfg : Cfg) (st : AgentState)
    (reqNs reqName : String) (fetch : Option PolicyFetch) :
    Except String AgentState :=
  let deleted := fetch.isNone || ((fetch.map (·.deleting)).getD false)
  if deleted then
    let setNames := buildIPSetNamesByPolicy reqNs reqName true true
    .ok (setNames.foldl (fun s sn => (removeIPSet s sn.name).1) st)
  else
    match w.gateways.find? (fun g => g.name == reqName) with
    | none => .error "failed to get gateway"
    | some gw =>
      let nodeName := gw.nodeList.foldl (fun acc node =>
        node.eips.foldl (fun acc eip =>
          eip.policies.foldl (fun acc p =>
            if p.name == reqName && p.ns == reqNs then node.name else acc) acc) acc) ""
      let flag := nodeName == cfg.nodeName
      updatePolicyIPSet w cfg st reqNs reqName flag
        (((fetch.map (·.destSubnet)).getD []))

/-! ## The cluster-info reconciler -/

/-- A v4/v6 pair of string lists (egressv1 `IPListPair`). -/
structure IPListPair where
  v4 : List String
  v6 : List String
deriving DecidableEq, Repr

/-- The `Status.EgressIgnoreCIDR` of `EgressClusterInfo`. -/
structure ClusterInfo where
  nodeIP : IPListPair
  podCIDR : IPListPair
  clusterIP : IPListPair
deriving DecidableEq, Repr

/-- reconcileClusterInfo `addIP`: parse each item as an IP and append its
canonical text to the list of its family; unparsable items are dropped. -/
def addIPs (acc : List String × List String) (items : List String) :
    List String × List String :=
  items.foldl (fun acc s =>
    match goParseIP s with
    | some ip =>
      if isV4Mapped ip then (acc.1 ++ [ipToString ip], acc.2)
      else (acc.1, acc.2 ++ [ipToString ip])
    | none => acc) acc

/-- reconcileClusterInfo `addCIDR`: parse each item as a CIDR and append
its canonical network text to the list of its family. -/
def addCIDRs (acc : List String × List String) (items : List String) :
    List String × List String :=
  items.foldl (fun acc s =>
    match goParseCIDR s with
    | some (ip, cidr) =>
      if isV4Mapped ip then (acc.1 ++ [ipNetString cidr], acc.2)
      else (acc.1, acc.2 ++ [ipNetString cidr])
    | none => acc) acc

/-- The desired cluster-ignore members: node IPs, pod CIDRs, cluster-IP
CIDRs and the user-configured CIDRs, canonicalized and split by family. -/
def clusterInfoWant (info : ClusterInfo) (custom : List String) :
    List String × List String :=
  let acc := addIPs ([], []) info.nodeIP.v4
  let acc := addIPs acc info.nodeIP.v6
  let acc := addCIDRs acc info.podCIDR.v4
  let acc := addCIDRs acc info.podCIDR.v6
  let acc := addCIDRs acc info.clusterIP.v4
  let acc := addCIDRs acc info.clusterIP.v6
  addCIDRs acc custom

/-- Insert into a sorted duplicate-free string list. -/
def sortedInsert (x : String) : List String → List String
  | [] => [x]
  | y :: ys =>
    if x == y then y :: ys
    else if compare x y == Ordering.lt then x :: y :: ys
    else y :: sortedInsert x ys

/-- Model of `sets.NewString(...).List()`: the sorted key set. -/
def setSorted (l : List String) : List String :=
  l.foldl (fun acc s => sortedInsert s acc) []

/-- The `process` closure of `reconcileClusterInfo`, returning the keys
passed to `toAdd` and to `toDel` in call order: build the two key sets;
delete every got-key from `exp`; then (over a snapshot of `exp`) delete
from `exp` every key that `got` has; finally call `toAdd` on the remaining
`exp` keys and `toDel` on the keys of `got`, which the loops never
mutated. -/
def processCalls (gotList expList : List String) : List String × List String :=
  let got := setSorted gotList
  let exp0 := setSorted expList
  let exp1 := got.foldl
    (fun e k => if e.contains k then e.filter (fun x => !(x == k)) else e) exp0
  let exp2 := exp1.foldl
    (fun e k => if got.contains k then e.filter (fun x => !(x == k)) else e) exp1
  (exp2, got)

/-- Run one family of the cluster-info reconcile against the kernel:
additions first, then removals, as produced by `processCalls`. -/
def applyProcess (name : String) (k : Kernels) (gotList expList : List String) :
    Except String Kernels :=
  match processCalls gotList expList with
  | (adds, dels) =>
    match addEntries name k adds with
    | .error e => .error e
    | .ok k2 => delEntries name k2 dels

/-- police.go `reconcileClusterInfo`: return on a deleted resource;
otherwise compute the desired members, ensure the two cluster-ignore sets
exist, list both, and reconcile each family through `process`. -/
def reconcileClusterInfo (info : Option ClusterInfo) (deleting : Bool)
    (custom : List String) (st : AgentState) : Except String AgentState :=
  match info with
  | none => .ok st
  | some inf =>
    if deleting then .ok st
    else
      let want := clusterInfoWant inf custom
      let k0 := kernelCreateSet (kernelCreateSet st.kernelSets EgressClusterCIDRIPv4)
        EgressClusterCIDRIPv6
      match kernelListEntries k0 EgressClusterCIDRIPv4,
            kernelListEntries k0 EgressClusterCIDRIPv6 with
      | some got4, some got6 =>
        match applyProcess EgressClusterCIDRIPv4 k0 got4 want.1 with
        | .error e => .error e
        | .ok k1 =>
          match applyProcess EgressClusterCIDRIPv6 k1 got6 want.2 with
          | .error e => .error e
          | .ok k2 => .ok { st with kernelSets := k2 }
      | _, _ => .error "ipset list failed"

/-- Whether an `Except` value is a success. -/
def exceptIsOk {ε α : Type} : Except ε α → Bool
  | .ok _ => true
  | .error _ => false

/-- A freshly constructed table with no recorded chains. -/
def freshTable (name : String) (v : Nat) : Table := ⟨name, v, []⟩

/-- The reconciler state as `newPolicyController` builds it: empty caches
and, per enabled family, fresh mangle, nat and filter tables. -/
def newAgentState (cfg : Cfg) : AgentState :=
  { ipsetCache := []
    kernelSets := []
    mangleTables :=
      (if cfg.enableIPv4 then [freshTable "mangle" 4] else [])
        ++ (if cfg.enableIPv6 then [freshTable "mangle" 6] else [])
    natTables :=
      (if cfg.enableIPv4 then [freshTable "nat" 4] else [])
        ++ (if cfg.enableIPv6 then [freshTable "nat" 6] else [])
    filterTables :=
      (if cfg.enableIPv4 then [freshTable "filter" 4] else [])
        ++ (if cfg.enableIPv6 then [freshTable "filter" 6] else []) }

/-- The `DestSubnet`-refreshed form of a partition map, as the set phase
leaves it (the Go code mutates the shared `*PolicyCommon` values). -/
def finalizePairs (w : World) (pairs : List (GoPolicy × PolicyCommon)) :
    List (GoPolicy × PolicyCommon) :=
  pairs.map (fun pv => (pv.1, { pv.2 with destSubnet := specDestSubnet w pv.1 }))

/-- The mark rule one entry of the remote partition contributes, if any:
nothing when the EIP node has no `EgressNode` object or its mark does not
parse (the latter fails the whole pass, so it never reaches a chain). -/
def mangleRuleFor (w : World) (v : Nat) (pv : GoPolicy × PolicyCommon) : Option Rule :=
  match lookupStr w.egressNodeMarks pv.2.nodeName with
  | none => none
  | some m =>
    match parseMark m with
    | .error _ => none
    | .ok mark =>
      some (buildPolicyRule (policyKeyName pv.1) mark v
        (decide (pv.2.destSubnet.length ≤ 0)))

/-- The SNAT rule one entry of the local partition contributes, if any. -/
def natRuleFor (v : Nat) (pv : GoPolicy × PolicyCommon) : Option Rule :=
  buildEipRule (policyKeyName pv.1) pv.2.ip v (decide (pv.2.destSubnet.length ≤ 0))

/-- Whether policy `p` appears in a gateway status under a node other than
the local one. -/
def listedRemote (w : World) (localNode : String) (p : GoPolicy) : Prop :=
  ∃ gw ∈ w.gateways, ∃ nl ∈ gw.nodeList,
    ¬(nl.name = localNode) ∧ ∃ e ∈ nl.eips, p ∈ e.policies

/-- Whether policy `p` appears in a gateway status under the local node. -/
def listedLocal (w : World) (localNode : String) (p : GoPolicy) : Prop :=
  ∃ gw ∈ w.gateways, ∃ nl ∈ gw.nodeList,
    nl.name = localNode ∧ ∃ e ∈ nl.eips, p ∈ e.policies

/-- Key membership in a partition map. -/
def keyMem (m : List (GoPolicy × PolicyCommon)) (p : GoPolicy) : Prop :=
  ∃ pv ∈ m, pv.1 = p

/-- The v4 projection of one parsed dest-subnet entry. -/
def dstV4Of (s : String) : Option String :=
  match goParseCIDR s with
  | some (ip, net) => if isV4Mapped ip then some (ipNetString net) else none
  | none => none

/-- The v6 projection of one parsed dest-subnet entry. -/
def dstV6Of (s : String) : Option String :=
  match goParseCIDR s with
  | some (ip, net) => if isV4Mapped ip then none else some (ipNetString net)
  | none => none

/-- The delete path of `reconcilePolicy` as a fold of `removeIPSet`. -/
def removeNamesFold (names : List SetName) (st : AgentState) : AgentState :=
  names.foldl (fun s sn => (removeIPSet s sn.name).1) st

/-- A mark rule owned by policy `p1` (it references `p1`'s set names). -/
def c3Rule : Rule := buildPolicyRule "p1" 637534209 4 false

/-- A state caching `p1`'s four sets, whose mangle chain holds `p1`'s rule. -/
def c3State : AgentState :=
  ⟨(buildIPSetNamesByPolicy "" "p1" true true).map (·.name),
   ((buildIPSetNamesByPolicy "" "p1" true true).map (·.name)).map (fun n => (n, [])),
   [],
   [⟨"mangle", 4, [("EGRESSGATEWAY-MARK-REQUEST", [c3Rule])]⟩],
   []⟩

/-- The state after the delete reconcile of `p1` from `c3State`. -/
def c3After : AgentState :=
  ((reconcilePolicy ⟨[], [], [], []⟩ ⟨"nodeA", true, true, "0x26000000"⟩
    c3State "" "p1" none).toOption).getD c3State

/-- A world with one gateway whose status lists no nodes. -/
def w9 : World := ⟨[⟨"default", []⟩], [], [], []⟩

/-- A v4-only configuration with the default base mark. -/
def cfg9 : Cfg := ⟨"nodeA", true, false, "0x26000000"⟩

/-- The state after the first rebuild over `w9`. -/
def c9st1 : AgentState :=
  (initApplyPolicy w9 cfg9 (newAgentState cfg9)).toOption.getD (newAgentState cfg9)

/-- The state after the second rebuild over `w9`. -/
def c9st2 : AgentState :=
  (initApplyPolicy w9 cfg9 c9st1).toOption.getD c9st1

/-- The key list of a partition map. -/
def keysOf (m : List (GoPolicy × PolicyCommon)) : List GoPolicy := m.map Prod.fst

/-- A world whose only policy `ns1/app` is listed under the remote node
`nodeB`, for which no `EgressNode` object (hence no mark) exists. -/
def c1w : World :=
  { gateways := [⟨"default", [⟨"nodeB", [⟨"10.6.1.21", "", [⟨"ns1", "app"⟩]⟩]⟩]⟩]
    egressNodeMarks := []
    policySpecs := []
    endpointSlices := [] }

/-- An IPv4-only agent configuration on node `nodeA`. -/
def c1cfg : Cfg :=
  { nodeName := "nodeA", enableIPv4 := true, enableIPv6 := false
    mark := "0x26000000" }

/-- The state a full rebuild over `c1w` produces. -/
def c1st : AgentState :=
  (initApplyPolicy c1w c1cfg (newAgentState c1cfg)).toOption.getD (newAgentState c1cfg)

/-- The same world with the `EgressNode` mark of `nodeB` present. -/
def c1wk : World :=
  { gateways := [⟨"default", [⟨"nodeB", [⟨"10.6.1.21", "", [⟨"ns1", "app"⟩]⟩]⟩]⟩]
    egressNodeMarks := [("nodeB", "0x26000001")]
    policySpecs := []
    endpointSlices := [] }

/-- The state a full rebuild over `c1wk` produces. -/
def c1stk : AgentState :=
  (initApplyPolicy c1wk c1cfg (newAgentState c1cfg)).toOption.getD (newAgentState c1cfg)

/-! ## Shared helper lemmas -/

/-- A skip-or-append fold is an append of a filter. -/
theorem foldl_skip_filter (p : String → Bool) :
    ∀ (l acc : List String),
      l.foldl (fun a s => if p s then a else a ++ [s]) acc
        = acc ++ l.filter (fun s => !(p s)) := by
  intro l
  induction l with
  | nil => intro acc; simp
  | cons x xs ih =>
    intro acc
    by_cases h : p x = true
    · simp [List.foldl_cons, h, ih]
    · simp only [Bool.not_eq_true] at h
      simp [List.foldl_cons, h, ih, List.append_assoc]

/-- `findDiff` as a pair of filters over the normalized new list. -/
theorem findDiff_eq_filters (oldList newList : List String) :
    findDiff oldList newList =
      ((newList.map normalizeEntry).filter (fun s => !(oldList.contains s)),
       oldList.filter (fun s => !((newList.map normalizeEntry).contains s))) := by
  unfold findDiff
  dsimp only
  rw [foldl_skip_filter (fun s => oldList.contains s),
      foldl_skip_filter (fun s => (List.map normalizeEntry newList).contains s)]
  simp

/-! ## C5 -/

/-- C5: for all string lists old and new, `findDiff(old, new)` first
normalizes each entry of new (a `/32` suffix is stripped to the bare
address; a parsable address before a `/128` suffix is canonicalized via
`ParseIP`; any other parsable CIDR is rewritten to its canonical network
form) and returns `toAdd` = the normalized new entries absent from old and
`toDel` = the old entries absent from the normalized new list. -/
theorem C5_findDiff_normalize_and_diff :
    (∀ oldList newList : List String,
      findDiff oldList newList =
        ((newList.map normalizeEntry).filter (fun s => !(oldList.contains s)),
         oldList.filter (fun s => !((newList.map normalizeEntry).contains s))))
    ∧ (∀ s : String, strEndsWith s "/32" = true → normalizeEntry s = strDropRight s 3)
    ∧ (∀ s : String, strEndsWith s "/32" = false → strEndsWith s "/128" = true →
        ∀ ip, goParseIP (strDropRight s 4) = some ip → normalizeEntry s = ipToString ip)
    ∧ (∀ s : String, strEndsWith s "/32" = false → strEndsWith s "/128" = false →
        ∀ ip net, goParseCIDR s = some (ip, net) → normalizeEntry s = ipNetString net) := by
  refine ⟨findDiff_eq_filters, ?_, ?_, ?_⟩
  · intro s h
    simp [normalizeEntry, h]
  · intro s h32 h128 ip hip
    simp [normalizeEntry, h32, h128, hip]
  · intro s h32 h128 ip net hcidr
    simp [normalizeEntry, h32, h128, hcidr]

/-- C5 witness: the theorem applied at concrete inputs. -/
theorem C5_witness :
    findDiff ["10.0.0.2"] ["10.0.0.1/32"] = (["10.0.0.1"], ["10.0.0.2"])
    ∧ normalizeEntry "10.0.0.1/32" = "10.0.0.1"
    ∧ normalizeEntry "::1/128" = "::1"
    ∧ normalizeEntry "10.96.1.0/12" = "10.96.0.0/12" := by
  refine ⟨?_, ?_, ?_, ?_⟩
  · exact (C5_findDiff_normalize_and_diff.1 ["10.0.0.2"] ["10.0.0.1/32"]).trans (by decide)
  · exact (C5_findDiff_normalize_and_diff.2.1 "10.0.0.1/32" (by decide)).trans (by decide)
  · exact (C5_findDiff_normalize_and_diff.2.2.1 "::1/128" (by decide) (by decide)
      [0, 0, 0, 0, 0, 0, 0, 0, 0, 0, 0, 0, 0, 0, 0, 1] (by decide)).trans (by decide)
  · exact (C5_findDiff_normalize_and_diff.2.2.2 "10.96.1.0/12" (by decide) (by decide)
      (v4InV6 10 96 1 0) ⟨[10, 96, 0, 0], 12⟩ (by decide)).trans (by decide)

/-! ## C6 -/

/-- C6 counterexample: `findDiff(A, A)` is not `([], [])` for
`A = ["10.0.0.1/32"]`, because normalization is applied to the new list
only: the entry is added back in bare form and deleted in `/32` form. -/
theorem C6_counterexample :
    findDiff ["10.0.0.1/32"] ["10.0.0.1/32"] = (["10.0.0.1"], ["10.0.0.1/32"])
    ∧ ¬ findDiff ["10.0.0.1/32"] ["10.0.0.1/32"] = ([], []) := by
  constructor
  · decide
  · decide

/-- C6 (amended): `findDiff(A, A) = ([], [])` for every `A` whose entries
are already in normalized form; and for all `A`, `B`, applying the diff to
`A` (dropping `toDel`, adding `toAdd`) yields, as a set, exactly the
normalized form of `B`. -/
theorem C6_diff_roundtrip :
    (∀ A : List String, (∀ s ∈ A, normalizeEntry s = s) → findDiff A A = ([], []))
    ∧ (∀ A B : List String, ∀ s : String,
        (s ∈ A.filter (fun x => !((findDiff A B).2.contains x)) ∨ s ∈ (findDiff A B).1)
          ↔ s ∈ B.map normalizeEntry) := by
  have hc : ∀ (l : List String) (x : String), l.contains x = true ↔ x ∈ l :=
    fun _ _ => List.elem_iff
  constructor
  · intro A h
    have hmap : A.map normalizeEntry = A := by
      calc A.map normalizeEntry = A.map id := List.map_congr_left h
        _ = A := List.map_id A
    rw [findDiff_eq_filters, hmap]
    have hnil : A.filter (fun s => !(A.contains s)) = [] := by
      apply List.filter_eq_nil_iff.mpr
      intro s hs
      rw [(hc A s).mpr hs]
      simp
    rw [hnil]
  · intro A B s
    rw [findDiff_eq_filters]
    constructor
    · rintro (h | h)
      · rcases List.mem_filter.mp h with ⟨hA, hb⟩
        by_contra hN
        have hsd : s ∈ A.filter
            (fun y => !((B.map normalizeEntry).contains y)) := by
          refine List.mem_filter.mpr ⟨hA, ?_⟩
          cases hNc : (B.map normalizeEntry).contains s with
          | true => exact absurd ((hc _ s).mp hNc) hN
          | false => simp
        rw [(hc _ s).mpr hsd] at hb
        simp at hb
      · exact (List.mem_filter.mp h).1
    · intro hN
      by_cases hA : s ∈ A
      · left
        refine List.mem_filter.mpr ⟨hA, ?_⟩
        cases hdc : (A.filter
            (fun y => !((B.map normalizeEntry).contains y))).contains s with
        | false => simp
        | true =>
          have hmem := List.mem_filter.mp ((hc _ s).mp hdc)
          rw [(hc _ s).mpr hN] at hmem
          simp at hmem
      · right
        refine List.mem_filter.mpr ⟨hN, ?_⟩
        cases hAc : A.contains s with
        | true => exact absurd ((hc A s).mp hAc) hA
        | false => simp

/-- C6 witness: the amended theorem applied at concrete inputs. -/
theorem C6_witness :
    findDiff ["10.0.0.1"] ["10.0.0.1"] = ([], [])
    ∧ (("10.0.0.0/8" ∈ (["10.0.0.1"].filter
          (fun x => !((findDiff ["10.0.0.1"] ["10.0.0.0/8"]).2.contains x)))
        ∨ "10.0.0.0/8" ∈ (findDiff ["10.0.0.1"] ["10.0.0.0/8"]).1)
      ↔ "10.0.0.0/8" ∈ ["10.0.0.0/8"].map normalizeEntry) := by
  constructor
  · exact C6_diff_roundtrip.1 ["10.0.0.1"] (by decide)
  · exact C6_diff_roundtrip.2 ["10.0.0.1"] ["10.0.0.0/8"] "10.0.0.0/8"

/-! ## C8 -/

/-- C8 counterexample: a bare IP address entry is not canonicalized to host
address form; it makes `getDstCIDR` fail, because `ParseCIDR` requires a
prefix length. -/
theorem C8_counterexample :
    getDstCIDR ["10.0.0.1"] = Except.error "invalid CIDR address: 10.0.0.1"
    ∧ exceptIsOk (getDstCIDR ["10.0.0.1"]) = false := by
  exact ⟨rfl, rfl⟩

/-- C8 (amended): when every entry parses as a CIDR, `getDstCIDR` places
each entry's canonical network form into the list of its family, in order;
a list containing an unparsable entry (in particular a bare IP address)
makes the whole call return an error. -/
theorem C8_getDstCIDR_characterization :
    (∀ list : List String, (∀ s ∈ list, (goParseCIDR s).isSome) →
      getDstCIDR list = .ok (list.filterMap dstV4Of, list.filterMap dstV6Of))
    ∧ (∀ list : List String, ∀ s ∈ list, goParseCIDR s = none →
        ∃ e, getDstCIDR list = .error e) := by
  constructor
  · intro list h
    induction list with
    | nil => simp [getDstCIDR]
    | cons x xs ih =>
      have hx : (goParseCIDR x).isSome := h x (by simp)
      obtain ⟨⟨ip, net⟩, hval⟩ := Option.isSome_iff_exists.mp hx
      have ihh := ih (fun s hs => h s (by simp [hs]))
      by_cases hm : isV4Mapped ip = true
      · simp [getDstCIDR, hval, ihh, hm, List.filterMap_cons, dstV4Of, dstV6Of]
      · simp only [Bool.not_eq_true] at hm
        simp [getDstCIDR, hval, ihh, hm, List.filterMap_cons, dstV4Of, dstV6Of]
  · intro list
    induction list with
    | nil => intro s hs; simp at hs
    | cons x xs ih =>
      intro s hs hnone
      rcases List.mem_cons.mp hs with hs | hs
      · subst hs
        exact ⟨"invalid CIDR address: " ++ s, by simp [getDstCIDR, hnone]⟩
      · cases hx : goParseCIDR x with
        | none => exact ⟨"invalid CIDR address: " ++ x, by simp [getDstCIDR, hx]⟩
        | some pr =>
          obtain ⟨ip, net⟩ := pr
          obtain ⟨e, he⟩ := ih s hs hnone
          exact ⟨e, by simp [getDstCIDR, hx, he]⟩

/-- C8 witness: the amended theorem applied at concrete inputs. -/
theorem C8_witness :
    getDstCIDR ["10.6.1.92/32", "fd00::1/64"]
      = .ok (["10.6.1.92/32"], ["fd00::/64"])
    ∧ (∃ e, getDstCIDR ["10.6.1.92/32", "10.0.0.1"] = Except.error e) := by
  constructor
  · exact (C8_getDstCIDR_characterization.1 ["10.6.1.92/32", "fd00::1/64"]
      (by decide)).trans rfl
  · exact C8_getDstCIDR_characterization.2 ["10.6.1.92/32", "10.0.0.1"]
      "10.0.0.1" (by decide) (by decide)

/-! ## C7 -/

/-- One compression step yields a five-word digest state. -/
theorem sha1Block_length (h b : List Nat) : (sha1Block h b).length = 5 := by
  simp [sha1Block]

/-- Folding compression steps preserves the five-word digest state. -/
theorem foldl_sha1Block_length :
    ∀ (bs : List (List Nat)) (h : List Nat), h.length = 5 →
      (bs.foldl sha1Block h).length = 5 := by
  intro bs
  induction bs with
  | nil => intro h hh; simpa using hh
  | cons b rest ih => intro h _; exact ih (sha1Block h b) (sha1Block_length h b)

/-- The SHA-1 digest has five words. -/
theorem sha1Words_length (m : List Nat) : (sha1Words m).length = 5 :=
  foldl_sha1Block_length _ _ rfl

/-- Each digest word prints as eight hex characters. -/
theorem word8Hex_length (w : Nat) : (word8Hex w).length = 8 := by
  simp [word8Hex]

/-- Hex-printing a word list yields eight characters per word. -/
theorem flatten_map_word8Hex_length :
    ∀ l : List Nat, ((l.map word8Hex).flatten).length = 8 * l.length := by
  intro l
  induction l with
  | nil => simp
  | cons x xs ih => simp [ih, word8Hex_length, Nat.mul_succ, Nat.add_comm]

/-- The SHA-1 hex digest has 40 characters. -/
theorem sha1HexChars_length (m : List Nat) : (sha1HexChars m).length = 40 := by
  unfold sha1HexChars
  rw [flatten_map_word8Hex_length, sha1Words_length]

/-- A derived set name has exactly 31 characters whenever the prefix fits. -/
theorem formatIPSetName_length (pfx k : String) (h : pfx.length ≤ 31)
    (h2 : 31 - pfx.length ≤ 40) : (formatIPSetName pfx k).length = 31 := by
  unfold formatIPSetName
  rw [String.length_append]
  have hmk : (String.mk ((sha1HexChars (utf8Bytes k)).take (31 - pfx.length))).length
      = ((sha1HexChars (utf8Bytes k)).take (31 - pfx.length)).length := rfl
  rw [hmk, List.length_take, sha1HexChars_length]
  omega

/-- C7: with both families enabled, a policy's four set names are exactly
`prefix ++ hex(sha1(key))[0 : 31 - len(prefix)]` over the four prefixes,
where `key` is `namespace-name` for a namespaced policy and `name`
otherwise; the derivation is total and every name has length 31. -/
theorem C7_set_name_derivation (ns name : String) :
    buildIPSetNamesByPolicy ns name true true =
      [⟨"egress-src-v4-" ++ String.mk ((sha1HexChars (utf8Bytes
          (if ns != "" then ns ++ "-" ++ name else name))).take
          (31 - "egress-src-v4-".length)), .v4, .src⟩,
       ⟨"egress-dst-v4-" ++ String.mk ((sha1HexChars (utf8Bytes
          (if ns != "" then ns ++ "-" ++ name else name))).take
          (31 - "egress-dst-v4-".length)), .v4, .dst⟩,
       ⟨"egress-src-v6-" ++ String.mk ((sha1HexChars (utf8Bytes
          (if ns != "" then ns ++ "-" ++ name else name))).take
          (31 - "egress-src-v6-".length)), .v6, .src⟩,
       ⟨"egress-dst-v6-" ++ String.mk ((sha1HexChars (utf8Bytes
          (if ns != "" then ns ++ "-" ++ name else name))).take
          (31 - "egress-dst-v6-".length)), .v6, .dst⟩]
    ∧ ∀ sn ∈ buildIPSetNamesByPolicy ns name true true, sn.name.length = 31 := by
  constructor
  · rfl
  · intro sn hsn
    unfold buildIPSetNamesByPolicy at hsn
    simp only [if_pos trivial, List.mem_append, List.mem_cons,
      List.not_mem_nil, or_false] at hsn
    rcases hsn with (h | h) | (h | h) <;> subst h <;>
      exact formatIPSetName_length _ _ (by decide) (by decide)

/-- C7 witness: the theorem applied at a concrete namespaced policy. -/
theorem C7_witness :
    (⟨formatIPSetName "egress-src-v4-" "ns1-app", .v4, .src⟩ : SetName)
        ∈ buildIPSetNamesByPolicy "ns1" "app" true true
    ∧ (formatIPSetName "egress-src-v4-" "ns1-app").length = 31 := by
  refine ⟨by decide, ?_⟩
  have h := (C7_set_name_derivation "ns1" "app").2
    ⟨formatIPSetName "egress-src-v4-" "ns1-app", .v4, .src⟩ (by decide)
  exact h

/-! ## C10 -/

/-- Filtering a name out leaves a list not containing it. -/
theorem contains_filter_ne_self (l : List String) (name : String) :
    (l.filter (fun n => !(n == name))).contains name = false := by
  cases hc : (l.filter (fun n => !(n == name))).contains name with
  | false => rfl
  | true =>
    have := List.mem_filter.mp (List.elem_iff.mp hc)
    simp at this

/-- C10: `removeIPSet` calls the backend `DestroySet` exactly when the name
is in the in-memory ipset cache; on a cache miss it changes nothing and
makes no backend call; on a hit the name leaves the cache (regardless of
whether the kernel set existed, a `DestroySet` failure being only logged),
the kernel set is gone, the table snapshots are untouched, and no error is
propagated (the function is total with no error channel). -/
theorem C10_removeIPSet_behaviour (st : AgentState) (name : String) :
    (st.ipsetCache.contains name = false → removeIPSet st name = (st, []))
    ∧ (st.ipsetCache.contains name = true →
        (removeIPSet st name).2 = [BackendCall.destroySet name]
        ∧ (removeIPSet st name).1.ipsetCache
            = st.ipsetCache.filter (fun n => !(n == name))
        ∧ (removeIPSet st name).1.ipsetCache.contains name = false
        ∧ (removeIPSet st name).1.kernelSets
            = st.kernelSets.filter (fun s => !(s.1 == name))
        ∧ (removeIPSet st name).1.filterTables = st.filterTables
        ∧ (removeIPSet st name).1.mangleTables = st.mangleTables
        ∧ (removeIPSet st name).1.natTables = st.natTables) := by
  constructor
  · intro h
    have hn : name ∉ st.ipsetCache := by
      intro hmem
      have hc : st.ipsetCache.contains name = true := List.elem_iff.mpr hmem
      rw [hc] at h
      exact Bool.noConfusion h
    simp [removeIPSet, hn]
  · intro h
    have hm : name ∈ st.ipsetCache := List.elem_iff.mp h
    refine ⟨?_, ?_, ?_, ?_, ?_, ?_, ?_⟩ <;>
      simp [removeIPSet, hm, List.mem_filter]

/-- C10 witness: the theorem applied at concrete states, one for the
cache-miss case and one for a cached name whose kernel set is absent (the
`DestroySet` error case: the cache entry is deleted all the same). -/
theorem C10_witness :
    removeIPSet ⟨["a"], [("a", [])], [], [], []⟩ "b"
        = (⟨["a"], [("a", [])], [], [], []⟩, [])
    ∧ (removeIPSet ⟨["a"], [], [], [], []⟩ "a").2 = [BackendCall.destroySet "a"]
    ∧ (removeIPSet ⟨["a"], [], [], [], []⟩ "a").1.ipsetCache.contains "a" = false := by
  refine ⟨?_, ?_, ?_⟩
  · exact (C10_removeIPSet_behaviour ⟨["a"], [("a", [])], [], [], []⟩ "b").1 (by decide)
  · exact ((C10_removeIPSet_behaviour ⟨["a"], [], [], [], []⟩ "a").2 (by decide)).1
  · exact ((C10_removeIPSet_behaviour ⟨["a"], [], [], [], []⟩ "a").2 (by decide)).2.2.1

/-! ## C2 -/

/-- C2: the cluster-info `process` closure, evaluated at
`have = want = ["10.10.0.0/16"]`.  The claim (and the surrounding spec)
says the removals are exactly `have \ want = {}`; the code instead passes
every member of `have` to `toDel`, because its second loop deletes from
`exp` (a no-op) where the evident intent was to delete from `got`.  The
end-to-end consequence: a member that is both present and wanted is
deleted from the kernel set on every reconcile. -/
theorem C2_process_deletes_kept_member :
    processCalls ["10.10.0.0/16"] ["10.10.0.0/16"] = ([], ["10.10.0.0/16"])
    ∧ (setSorted ["10.10.0.0/16"]).filter
        (fun s => !((setSorted ["10.10.0.0/16"]).contains s)) = []
    ∧ reconcileClusterInfo (some ⟨⟨[], []⟩, ⟨["10.10.0.0/16"], []⟩, ⟨[], []⟩⟩) false []
        ⟨[], [(EgressClusterCIDRIPv4, ["10.10.0.0/16"]), (EgressClusterCIDRIPv6, [])],
         [], [], []⟩
      = .ok ⟨[], [(EgressClusterCIDRIPv4, []), (EgressClusterCIDRIPv6, [])],
         [], [], []⟩ := by
  exact ⟨rfl, rfl, rfl⟩

/-! ## C4 -/

/-- C4: a policy with empty `destSubnets` produces rules matching the
negation of its family's cluster-ignore set with no positive dst-set
match, and a policy with non-empty `destSubnets` produces rules positively
matching its own dst set with no negated match - for the mangle mark rule
and the nat SNAT rule alike; the flag the chain builders pass is exactly
emptiness of the policy's dest-subnet list. -/
theorem C4_dest_match_shape :
    (∀ (name : String) (mark version : Nat),
      (buildPolicyRule name mark version true).mtch.notDstIPSet
          = some (if version == 6 then EgressClusterCIDRIPv6 else EgressClusterCIDRIPv4)
        ∧ (buildPolicyRule name mark version true).mtch.dstIPSet = none)
    ∧ (∀ (name : String) (mark version : Nat),
        (buildPolicyRule name mark version false).mtch.dstIPSet
            = some (formatIPSetName
                ("egress-dst-" ++ (if version == 6 then "v6-" else "v4-")) name)
          ∧ (buildPolicyRule name mark version false).mtch.notDstIPSet = none)
    ∧ (∀ (name : String) (eip : IPPair) (version : Nat) (r : Rule),
        buildEipRule name eip version true = some r →
          r.mtch.notDstIPSet
              = some (if version == 6 then EgressClusterCIDRIPv6 else EgressClusterCIDRIPv4)
            ∧ r.mtch.dstIPSet = none)
    ∧ (∀ (name : String) (eip : IPPair) (version : Nat) (r : Rule),
        buildEipRule name eip version false = some r →
          r.mtch.dstIPSet
              = some (formatIPSetName
                  ("egress-dst-" ++ (if version == 6 then "v6-" else "v4-")) name)
            ∧ r.mtch.notDstIPSet = none)
    ∧ (∀ (w : World) (version : Nat) (p : GoPolicy) (val : PolicyCommon)
        (markStr : String) (mark : Nat),
        lookupStr w.egressNodeMarks val.nodeName = some markStr →
        parseMark markStr = .ok mark →
        mangleChainRules w version [(p, val)] =
          .ok [buildPolicyRule (policyKeyName p) mark version
            (decide (val.destSubnet.length ≤ 0))])
    ∧ (∀ (version : Nat) (pv : GoPolicy × PolicyCommon),
        natChainRules [pv] version =
          (buildEipRule (policyKeyName pv.1) pv.2.ip version
            (decide (pv.2.destSubnet.length ≤ 0))).toList)
    ∧ (∀ l : List String, decide (l.length ≤ 0) = l.isEmpty) := by
  refine ⟨?_, ?_, ?_, ?_, ?_, ?_, ?_⟩
  · intro name mark version
    constructor <;>
      simp [buildPolicyRule, MatchCriteria.sourceIPSet, MatchCriteria.notDestIPSet,
        MatchCriteria.ctDirectionOriginal]
  · intro name mark version
    constructor <;>
      simp [buildPolicyRule, MatchCriteria.sourceIPSet, MatchCriteria.destIPSet,
        MatchCriteria.ctDirectionOriginal]
  · intro name eip version r hr
    by_cases he : (eip.v4 == "" && eip.v6 == "") = true
    · simp [buildEipRule, he] at hr
    · simp only [Bool.not_eq_true] at he
      simp [buildEipRule, he, MatchCriteria.sourceIPSet, MatchCriteria.notDestIPSet,
        MatchCriteria.ctDirectionOriginal] at hr
      constructor <;> simp [← hr]
  · intro name eip version r hr
    by_cases he : (eip.v4 == "" && eip.v6 == "") = true
    · simp [buildEipRule, he] at hr
    · simp only [Bool.not_eq_true] at he
      simp [buildEipRule, he, MatchCriteria.sourceIPSet, MatchCriteria.destIPSet,
        MatchCriteria.ctDirectionOriginal] at hr
      constructor <;> simp [← hr]
  · intro w version p val markStr mark hl hm
    simp [mangleChainRules, hl, hm]
  · intro version pv
    unfold natChainRules
    cases hf : buildEipRule (policyKeyName pv.1) pv.2.ip version
        (decide (pv.2.destSubnet.length ≤ 0)) with
    | none => rw [List.filterMap_cons, hf]; rfl
    | some r => rw [List.filterMap_cons, hf]; rfl
  · intro l
    cases l with
    | nil => rfl
    | cons x xs => simp

/-- C4 witness: the theorem applied at concrete inputs. -/
theorem C4_witness :
    (buildPolicyRule "p1" 1 4 true).mtch.notDstIPSet = some EgressClusterCIDRIPv4
    ∧ (buildPolicyRule "p1" 1 4 true).mtch.dstIPSet = none
    ∧ (∃ r, buildEipRule "p1" ⟨"192.168.10.5", ""⟩ 4 true = some r
        ∧ r.mtch.notDstIPSet = some EgressClusterCIDRIPv4
        ∧ r.mtch.dstIPSet = none)
    ∧ mangleChainRules ⟨[], [("nodeB", "0x26000001")], [], []⟩ 4
        [(⟨"", "p1"⟩, ⟨"nodeB", [], ⟨"", ""⟩⟩)] =
        .ok [buildPolicyRule "p1" 637534209 4 true] := by
  refine ⟨((C4_dest_match_shape.1 "p1" 1 4).1).trans rfl,
          (C4_dest_match_shape.1 "p1" 1 4).2, ?_, ?_⟩
  · refine ⟨_, rfl, ?_⟩
    have h := C4_dest_match_shape.2.2.1 "p1" ⟨"192.168.10.5", ""⟩ 4 _ rfl
    exact ⟨h.1.trans rfl, h.2⟩
  · have h := C4_dest_match_shape.2.2.2.2.1 ⟨[], [("nodeB", "0x26000001")], [], []⟩ 4
      ⟨"", "p1"⟩ ⟨"nodeB", [], ⟨"", ""⟩⟩ "0x26000001" 637534209 rfl rfl
    exact h.trans rfl

/-! ## C3 -/

/-- `removeIPSet` never adds a cache entry. -/
theorem removeIPSet_preserves_absent (st : AgentState) (n m : String)
    (h : st.ipsetCache.contains m = false) :
    (removeIPSet st n).1.ipsetCache.contains m = false := by
  by_cases hmem : n ∈ st.ipsetCache
  · have hcache : (removeIPSet st n).1.ipsetCache
        = st.ipsetCache.filter (fun x => !(x == n)) := by
      simp [removeIPSet, hmem]
    rw [hcache]
    cases hf : (st.ipsetCache.filter (fun x => !(x == n))).contains m with
    | false => rfl
    | true =>
      have hm := (List.mem_filter.mp (List.elem_iff.mp hf)).1
      have hcm : st.ipsetCache.contains m = true := List.elem_iff.mpr hm
      rw [hcm] at h
      exact Bool.noConfusion h
  · have hst : (removeIPSet st n).1 = st := by simp [removeIPSet, hmem]
    rw [hst]
    exact h

/-- After `removeIPSet st n`, the cache does not contain `n`. -/
theorem removeIPSet_self_absent (st : AgentState) (n : String) :
    (removeIPSet st n).1.ipsetCache.contains n = false := by
  by_cases hmem : n ∈ st.ipsetCache
  · have hcache : (removeIPSet st n).1.ipsetCache
        = st.ipsetCache.filter (fun x => !(x == n)) := by
      simp [removeIPSet, hmem]
    rw [hcache]
    exact contains_filter_ne_self st.ipsetCache n
  · have hst : (removeIPSet st n).1 = st := by simp [removeIPSet, hmem]
    rw [hst]
    cases hb : st.ipsetCache.contains n with
    | false => rfl
    | true => exact absurd (List.elem_iff.mp hb) hmem

/-- `removeIPSet` leaves every table snapshot untouched. -/
theorem removeIPSet_preserves_tables (st : AgentState) (n : String) :
    (removeIPSet st n).1.filterTables = st.filterTables
    ∧ (removeIPSet st n).1.mangleTables = st.mangleTables
    ∧ (removeIPSet st n).1.natTables = st.natTables := by
  by_cases hmem : n ∈ st.ipsetCache <;> simp [removeIPSet, hmem]

/-- The delete-path fold never adds a cache entry. -/
theorem removeNamesFold_preserves_absent :
    ∀ (names : List SetName) (st : AgentState) (m : String),
      st.ipsetCache.contains m = false →
      (removeNamesFold names st).ipsetCache.contains m = false := by
  intro names
  induction names with
  | nil => intro st m h; exact h
  | cons x xs ih =>
    intro st m h
    exact ih _ m (removeIPSet_preserves_absent st x.name m h)

/-- After the delete-path fold, none of the processed names is cached. -/
theorem removeNamesFold_absent :
    ∀ (names : List SetName) (st : AgentState), ∀ sn ∈ names,
      (removeNamesFold names st).ipsetCache.contains sn.name = false := by
  intro names
  induction names with
  | nil => intro st sn h; exact absurd h (List.not_mem_nil sn)
  | cons x xs ih =>
    intro st sn h
    rcases List.mem_cons.mp h with h | h
    · subst h
      exact removeNamesFold_preserves_absent xs _ sn.name
        (removeIPSet_self_absent st sn.name)
    · exact ih _ sn h

/-- The delete-path fold leaves every table snapshot untouched. -/
theorem removeNamesFold_preserves_tables :
    ∀ (names : List SetName) (st : AgentState),
      (removeNamesFold names st).filterTables = st.filterTables
      ∧ (removeNamesFold names st).mangleTables = st.mangleTables
      ∧ (removeNamesFold names st).natTables = st.natTables := by
  intro names
  induction names with
  | nil => intro st; exact ⟨rfl, rfl, rfl⟩
  | cons x xs ih =>
    intro st
    have h1 := removeIPSet_preserves_tables st x.name
    have h2 := ih (removeIPSet st x.name).1
    exact ⟨h2.1.trans h1.1, h2.2.1.trans h1.2.1, h2.2.2.trans h1.2.2⟩

/-- C3 counterexample: reconciling the deleted policy `p1` succeeds and
destroys its four cached sets, but its mark rule - the one referencing
`p1`'s source set - is still in the mangle chain afterwards: the delete
path of `reconcilePolicy` never touches the rule chains, so a rule owned
by the policy does remain. -/
theorem C3_counterexample :
    reconcilePolicy ⟨[], [], [], []⟩ ⟨"nodeA", true, true, "0x26000000"⟩
        c3State "" "p1" none = Except.ok c3After
    ∧ c3After.ipsetCache = []
    ∧ c3After.mangleTables.map (fun t => t.getChain "EGRESSGATEWAY-MARK-REQUEST")
        = [[c3Rule]]
    ∧ c3Rule.mtch.srcIPSet = some (formatIPSetName "egress-src-v4-" "p1") := by
  exact ⟨rfl, rfl, rfl, rfl⟩

/-- C3 (amended): when the policy CRD is absent or carries a deletion
timestamp, the reconcile passes the policy's four set names (both families)
through `removeIPSet` - destroying each cached set and swallowing every
backend error, including "set does not exist" - and returns success;
afterwards none of the four names is cached, but the policy's iptables
rules are not removed by this path (rule removal happens only in the
gateway-triggered full rebuild). -/
theorem C3_delete_path (w : World) (cfg : Cfg) (st : AgentState)
    (reqNs reqName : String) (fetch : Option PolicyFetch)
    (hdel : (fetch.isNone || ((fetch.map (·.deleting)).getD false)) = true) :
    reconcilePolicy w cfg st reqNs reqName fetch =
      .ok (removeNamesFold (buildIPSetNamesByPolicy reqNs reqName true true) st)
    ∧ (∀ sn ∈ buildIPSetNamesByPolicy reqNs reqName true true,
        (removeNamesFold (buildIPSetNamesByPolicy reqNs reqName true true)
          st).ipsetCache.contains sn.name = false)
    ∧ (removeNamesFold (buildIPSetNamesByPolicy reqNs reqName true true)
        st).filterTables = st.filterTables
    ∧ (removeNamesFold (buildIPSetNamesByPolicy reqNs reqName true true)
        st).mangleTables = st.mangleTables
    ∧ (removeNamesFold (buildIPSetNamesByPolicy reqNs reqName true true)
        st).natTables = st.natTables := by
  refine ⟨?_, removeNamesFold_absent _ st,
    (removeNamesFold_preserves_tables _ st).1,
    (removeNamesFold_preserves_tables _ st).2.1,
    (removeNamesFold_preserves_tables _ st).2.2⟩
  simp [reconcilePolicy, hdel, removeNamesFold]

/-- C3 witness: the amended theorem applied at the concrete state. -/
theorem C3_witness :
    reconcilePolicy ⟨[], [], [], []⟩ ⟨"nodeA", true, true, "0x26000000"⟩
        c3State "" "p1" none =
      .ok (removeNamesFold (buildIPSetNamesByPolicy "" "p1" true true) c3State)
    ∧ (removeNamesFold (buildIPSetNamesByPolicy "" "p1" true true)
        c3State).mangleTables = c3State.mangleTables := by
  have h := C3_delete_path ⟨[], [], [], []⟩ ⟨"nodeA", true, true, "0x26000000"⟩
    c3State "" "p1" none rfl
  exact ⟨h.1, h.2.2.2.1⟩

/-! ## Table and merge lemmas (for C9 and C1) -/

/-- Replacing the entry of chain `c` makes it what the lookup returns. -/
theorem lookupChain_map_replace (c : String) (rules : List Rule) :
    ∀ l : List (String × List Rule), l.any (fun x => x.1 == c) = true →
      lookupChain (l.map (fun x => if x.1 == c then (c, rules) else x)) c = rules := by
  intro l
  induction l with
  | nil => intro h; simp at h
  | cons y ys ih =>
    intro h
    by_cases hy : (y.1 == c) = true
    · simp only [List.map_cons, if_pos hy]
      simp [lookupChain]
    · simp only [Bool.not_eq_true] at hy
      simp only [List.any_cons, hy, Bool.false_or] at h
      simp only [List.map_cons, hy, Bool.false_eq_true, if_false]
      simp only [lookupChain, hy, Bool.false_eq_true, if_false]
      exact ih h

/-- Appending a new entry for chain `c` makes it what the lookup returns. -/
theorem lookupChain_append_new (c : String) (rules : List Rule) :
    ∀ l : List (String × List Rule), l.any (fun x => x.1 == c) = false →
      lookupChain (l ++ [(c, rules)]) c = rules := by
  intro l
  induction l with
  | nil => intro _; simp [lookupChain]
  | cons y ys ih =>
    intro h
    simp only [List.any_cons, Bool.or_eq_false_iff] at h
    simp only [List.cons_append, lookupChain, h.1, Bool.false_eq_true, if_false]
    exact ih h.2

/-- Replacing chain `c` leaves the lookup of a different chain unchanged. -/
theorem lookupChain_map_replace_ne (c cx : String) (rules : List Rule)
    (h : (cx == c) = false) :
    ∀ l : List (String × List Rule),
      lookupChain (l.map (fun x => if x.1 == c then (c, rules) else x)) cx
        = lookupChain l cx := by
  have hccx : (c == cx) = false := by
    cases he : (c == cx) with
    | false => rfl
    | true =>
      rw [beq_iff_eq] at he
      rw [he, beq_self_eq_true] at h
      exact Bool.noConfusion h
  intro l
  induction l with
  | nil => rfl
  | cons y ys ih =>
    by_cases hy : (y.1 == c) = true
    · have hyx : (y.1 == cx) = false := by
        rw [beq_iff_eq] at hy
        rw [hy]
        exact hccx
      simp only [List.map_cons, if_pos hy]
      simp only [lookupChain, hccx, hyx, Bool.false_eq_true, if_false]
      exact ih
    · simp only [Bool.not_eq_true] at hy
      simp only [List.map_cons, hy, Bool.false_eq_true, if_false]
      simp only [lookupChain]
      cases hyx : (y.1 == cx) with
      | true => rfl
      | false =>
        simp only [Bool.false_eq_true, if_false]
        exact ih

/-- Appending a new chain entry leaves another chain's lookup alone. -/
theorem lookupChain_append_ne (c cx : String) (rules : List Rule)
    (h : (cx == c) = false) :
    ∀ l : List (String × List Rule),
      lookupChain (l ++ [(c, rules)]) cx = lookupChain l cx := by
  have hccx : (c == cx) = false := by
    cases he : (c == cx) with
    | false => rfl
    | true =>
      rw [beq_iff_eq] at he
      rw [he, beq_self_eq_true] at h
      exact Bool.noConfusion h
  intro l
  induction l with
  | nil => simp [lookupChain, hccx]
  | cons y ys ih =>
    simp only [List.cons_append, lookupChain]
    cases hy : (y.1 == cx) with
    | true => rfl
    | false =>
      simp only [Bool.false_eq_true, if_false]
      exact ih

/-- Reading back the chain just written. -/
theorem getChain_setChain_self (t : Table) (c : String) (rules : List Rule) :
    (t.setChain c rules).getChain c = rules := by
  unfold Table.setChain Table.getChain
  by_cases h : t.chains.any (fun x => x.1 == c) = true
  · simp only [h, if_pos]
    exact lookupChain_map_replace c rules t.chains h
  · simp only [Bool.not_eq_true] at h
    simp only [h, Bool.false_eq_true, if_false]
    exact lookupChain_append_new c rules t.chains h

/-- Writing one chain does not move another. -/
theorem getChain_setChain_ne (t : Table) (c cx : String) (rules : List Rule)
    (h : (cx == c) = false) :
    (t.setChain c rules).getChain cx = t.getChain cx := by
  unfold Table.setChain Table.getChain
  by_cases ha : t.chains.any (fun x => x.1 == c) = true
  · simp only [ha, if_pos]
    exact lookupChain_map_replace_ne c cx rules h t.chains
  · simp only [Bool.not_eq_true] at ha
    simp only [ha, Bool.false_eq_true, if_false]
    exact lookupChain_append_ne c cx rules h t.chains

/-- `setChain` never changes a table's name or family. -/
theorem setChain_meta (t : Table) (c : String) (rules : List Rule) :
    (t.setChain c rules).name = t.name ∧ (t.setChain c rules).ipVersion = t.ipVersion := by
  unfold Table.setChain
  by_cases h : t.chains.any (fun x => x.1 == c) = true <;> simp [h]

/-- Reading the chain targeted by an `InsertOrAppendRules`. -/
theorem getChain_insertOrAppend_self (t : Table) (c : String) (rules : List Rule) :
    (t.insertOrAppendRules c rules).getChain c = mergeRules (t.getChain c) rules :=
  getChain_setChain_self t c _

/-- `InsertOrAppendRules` does not move another chain. -/
theorem getChain_insertOrAppend_ne (t : Table) (c cx : String) (rules : List Rule)
    (h : (cx == c) = false) :
    (t.insertOrAppendRules c rules).getChain cx = t.getChain cx :=
  getChain_setChain_ne t c cx _ h

/-- Occurrence count after an idempotent merge: a rule absent from the
current chain but present in the incoming list is appended exactly once;
everything else keeps its count. -/
theorem count_mergeRules (r : Rule) :
    ∀ (rules cur : List Rule),
      (mergeRules cur rules).count r
        = cur.count r
          + (if cur.contains r = false ∧ rules.contains r = true then 1 else 0) := by
  intro rules
  induction rules with
  | nil => intro cur; simp [mergeRules]
  | cons x xs ih =>
    intro cur
    show (mergeRules (if cur.contains x then cur else cur ++ [x]) xs).count r = _
    by_cases hx : cur.contains x = true
    · rw [if_pos hx, ih cur]
      by_cases hcr : cur.contains r = true
      · have hmr : r ∈ cur := List.elem_iff.mp hcr
        simp [hmr]
      · simp only [Bool.not_eq_true] at hcr
        have hxr : ¬(x == r) = true := by
          intro hxr
          rw [beq_iff_eq] at hxr
          rw [hxr] at hx
          rw [hx] at hcr
          exact Bool.noConfusion hcr
        have : ((x :: xs).contains r) = xs.contains r := by
          simp only [List.contains_cons]
          cases he : (r == x) with
          | false => simp
          | true =>
            rw [beq_iff_eq] at he
            subst he
            exact absurd (beq_self_eq_true r) hxr
        rw [this, hcr]
    · simp only [Bool.not_eq_true] at hx
      rw [if_neg (by rw [hx]; exact Bool.noConfusion), ih (cur ++ [x])]
      by_cases hxr : x = r
      · subst hxr
        have hcount : (cur ++ [x]).count x = cur.count x + 1 := by
          simp [List.count_append]
        have hcontains : ((cur ++ [x]).contains x) = true := by
          have : x ∈ cur ++ [x] := by simp
          exact List.elem_iff.mpr this
        rw [hcount, hcontains]
        have hcx : ((x :: xs).contains x) = true := by
          simp [List.contains_cons]
        rw [hx, hcx]
        simp
      · have hbeq : (r == x) = false := by
          cases hb : (r == x) with
          | false => rfl
          | true => rw [beq_iff_eq] at hb; exact absurd hb.symm hxr
        have hbeq2 : (x == r) = false := by
          cases hb : (x == r) with
          | false => rfl
          | true => rw [beq_iff_eq] at hb; exact absurd hb hxr
        have hcount : (cur ++ [x]).count r = cur.count r := by
          simp [List.count_append, List.count_cons, hbeq, hxr]
        have hcontains : ((cur ++ [x]).contains r) = cur.contains r := by
          cases hc : cur.contains r with
          | true =>
            have : r ∈ cur ++ [x] := List.mem_append_left _ (List.elem_iff.mp hc)
            exact List.elem_iff.mpr this
          | false =>
            cases hc2 : ((cur ++ [x]).contains r) with
            | false => rfl
            | true =>
              rcases List.mem_append.mp (List.elem_iff.mp hc2) with hm | hm
              · have hcc : cur.contains r = true := List.elem_iff.mpr hm
                rw [hcc] at hc
                exact Bool.noConfusion hc
              · simp at hm
                exact absurd hm.symm hxr
        rw [hcount, hcontains]
        have : ((x :: xs).contains r) = xs.contains r := by
          simp only [List.contains_cons, hbeq]
          simp
        rw [this]

/-! ## Pipeline extraction lemmas -/

/-- `createIPSet` never touches the table snapshots. -/
theorem createIPSet_preserves_tables (cfg : Cfg) (st : AgentState) (sn : SetName) :
    (createIPSet cfg st sn).filterTables = st.filterTables
    ∧ (createIPSet cfg st sn).mangleTables = st.mangleTables
    ∧ (createIPSet cfg st sn).natTables = st.natTables := by
  unfold createIPSet
  split
  · exact ⟨rfl, rfl, rfl⟩
  · split
    · exact ⟨rfl, rfl, rfl⟩
    · split
      · exact ⟨rfl, rfl, rfl⟩
      · exact ⟨rfl, rfl, rfl⟩

/-- The create fold of `updatePolicyIPSet` never touches the tables. -/
theorem foldl_createIPSet_preserves_tables (cfg : Cfg) :
    ∀ (names : List SetName) (st : AgentState),
      (names.foldl (createIPSet cfg) st).filterTables = st.filterTables
      ∧ (names.foldl (createIPSet cfg) st).mangleTables = st.mangleTables
      ∧ (names.foldl (createIPSet cfg) st).natTables = st.natTables := by
  intro names
  induction names with
  | nil => intro st; exact ⟨rfl, rfl, rfl⟩
  | cons x xs ih =>
    intro st
    have h1 := createIPSet_preserves_tables cfg st x
    have h2 := ih (createIPSet cfg st x)
    exact ⟨h2.1.trans h1.1, h2.2.1.trans h1.2.1, h2.2.2.trans h1.2.2⟩

/-- A successful add loop never touches the tables. -/
theorem foldAdds_ok_tables :
    ∀ (l : List (String × List String × List String)) (st st' : AgentState),
      foldAdds st l = .ok st' →
      st'.filterTables = st.filterTables
      ∧ st'.mangleTables = st.mangleTables
      ∧ st'.natTables = st.natTables := by
  intro l
  induction l with
  | nil =>
    intro st st' h
    cases h
    exact ⟨rfl, rfl, rfl⟩
  | cons x xs ih =>
    intro st st' h
    obtain ⟨name, toAdd, toDel⟩ := x
    unfold foldAdds at h
    by_cases hc : st.ipsetCache.contains name = true
    · rw [if_pos hc] at h
      cases ha : addEntries name st.kernelSets toAdd with
      | error e => rw [ha] at h; cases h
      | ok k2 =>
        rw [ha] at h
        exact ih { st with kernelSets := k2 } st' h
    · rw [if_neg (by rw [Bool.not_eq_true] at hc; rw [hc]; exact Bool.noConfusion)] at h
      exact ih st st' h

/-- A successful delete loop never touches the tables. -/
theorem foldDels_ok_tables :
    ∀ (l : List (String × List String × List String)) (st st' : AgentState),
      foldDels st l = .ok st' →
      st'.filterTables = st.filterTables
      ∧ st'.mangleTables = st.mangleTables
      ∧ st'.natTables = st.natTables := by
  intro l
  induction l with
  | nil =>
    intro st st' h
    cases h
    exact ⟨rfl, rfl, rfl⟩
  | cons x xs ih =>
    intro st st' h
    obtain ⟨name, toAdd, toDel⟩ := x
    unfold foldDels at h
    cases hd : delEntries name st.kernelSets toDel with
    | error e => rw [hd] at h; cases h
    | ok k2 =>
      rw [hd] at h
      exact ih { st with kernelSets := k2 } st' h

/-- A successful ipset reconcile of one policy never touches the tables. -/
theorem updatePolicyIPSet_ok_tables (w : World) (cfg : Cfg) (st st' : AgentState)
    (ns n : String) (b : Bool) (d : List String)
    (h : updatePolicyIPSet w cfg st ns n b d = .ok st') :
    st'.filterTables = st.filterTables
    ∧ st'.mangleTables = st.mangleTables
    ∧ st'.natTables = st.natTables := by
  unfold updatePolicyIPSet at h
  cases hdst : getDstCIDR d with
  | error e => rw [hdst] at h; cases h
  | ok dst =>
    rw [hdst] at h
    dsimp only at h
    cases hadd : foldAdds
        ((buildIPSetNamesByPolicy ns n cfg.enableIPv4 cfg.enableIPv6).foldl
          (createIPSet cfg) st)
        ((buildIPSetNamesByPolicy ns n cfg.enableIPv4 cfg.enableIPv6).map
          (fun sn => (sn.name, computeSetDiff cfg
            ((buildIPSetNamesByPolicy ns n cfg.enableIPv4 cfg.enableIPv6).foldl
              (createIPSet cfg) st)
            (getPolicySrcIPs w ns n (fun e => e.node == cfg.nodeName || b)) dst sn))) with
    | error e => rw [hadd] at h; cases h
    | ok st2 =>
      rw [hadd] at h
      have h1 := foldl_createIPSet_preserves_tables cfg
        (buildIPSetNamesByPolicy ns n cfg.enableIPv4 cfg.enableIPv6) st
      have h2 := foldAdds_ok_tables _ _ _ hadd
      have h3 := foldDels_ok_tables _ _ _ h
      exact ⟨h3.1.trans (h2.1.trans h1.1),
             h3.2.1.trans (h2.2.1.trans h1.2.1),
             h3.2.2.trans (h2.2.2.trans h1.2.2)⟩

/-- A successful set phase refreshes each entry's `destSubnet` from the CRD
view and never touches the tables. -/
theorem setPhase_ok (w : World) (cfg : Cfg) (isEip : Bool) :
    ∀ (pairs : List (GoPolicy × PolicyCommon)) (st : AgentState)
      (st' : AgentState) (pairs' : List (GoPolicy × PolicyCommon)),
      setPhase w cfg isEip st pairs = .ok (st', pairs') →
      pairs' = finalizePairs w pairs
      ∧ st'.filterTables = st.filterTables
      ∧ st'.mangleTables = st.mangleTables
      ∧ st'.natTables = st.natTables := by
  intro pairs
  induction pairs with
  | nil =>
    intro st st' pairs' h
    cases h
    exact ⟨rfl, rfl, rfl, rfl⟩
  | cons pv rest ih =>
    intro st st' pairs' h
    obtain ⟨p, val⟩ := pv
    unfold setPhase at h
    dsimp only at h
    cases hup : updatePolicyIPSet w cfg st p.ns p.name isEip (specDestSubnet w p) with
    | error e => rw [hup] at h; cases h
    | ok st2 =>
      rw [hup] at h
      dsimp only at h
      cases hsp : setPhase w cfg isEip st2 rest with
      | error e => rw [hsp] at h; cases h
      | ok res =>
        obtain ⟨st3, rest2⟩ := res
        rw [hsp] at h
        dsimp only at h
        cases h
        have hr := ih st2 _ _ hsp
        have hu := updatePolicyIPSet_ok_tables w cfg st st2 p.ns p.name isEip
          (specDestSubnet w p) hup
        exact ⟨by rw [hr.1]; rfl,
               hr.2.1.trans hu.1, hr.2.2.1.trans hu.2.1, hr.2.2.2.trans hu.2.2⟩

/-- A successful mark-rule computation is the per-entry `filterMap`, and
every entry with a known EIP node had a parsable mark. -/
theorem mangleChainRules_ok (w : World) (v : Nat) :
    ∀ (pairs : List (GoPolicy × PolicyCommon)) (rules : List Rule),
      mangleChainRules w v pairs = .ok rules →
      rules = pairs.filterMap (mangleRuleFor w v)
      ∧ (∀ pv ∈ pairs, ∀ m, lookupStr w.egressNodeMarks pv.2.nodeName = some m →
          ∃ k, parseMark m = .ok k) := by
  intro pairs
  induction pairs with
  | nil =>
    intro rules h
    cases h
    exact ⟨rfl, by intro pv hpv; simp at hpv⟩
  | cons pv rest ih =>
    intro rules h
    obtain ⟨p, val⟩ := pv
    unfold mangleChainRules at h
    cases hl : lookupStr w.egressNodeMarks val.nodeName with
    | none =>
      rw [hl] at h
      have hr := ih rules h
      refine ⟨?_, ?_⟩
      · rw [hr.1, List.filterMap_cons]
        have : mangleRuleFor w v (p, val) = none := by
          simp [mangleRuleFor, hl]
        rw [this]
      · intro pv2 hpv2 m hm
        rcases List.mem_cons.mp hpv2 with he | he
        · subst he
          rw [hl] at hm
          cases hm
        · exact hr.2 pv2 he m hm
    | some mstr =>
      rw [hl] at h
      dsimp only at h
      cases hpm : parseMark mstr with
      | error e => rw [hpm] at h; cases h
      | ok mark =>
        rw [hpm] at h
        dsimp only at h
        cases hrest : mangleChainRules w v rest with
        | error e => rw [hrest] at h; cases h
        | ok rs =>
          rw [hrest] at h
          cases h
          have hr := ih rs hrest
          refine ⟨?_, ?_⟩
          · rw [List.filterMap_cons]
            have : mangleRuleFor w v (p, val) =
                some (buildPolicyRule (policyKeyName p) mark v
                  (decide (val.destSubnet.length ≤ 0))) := by
              simp [mangleRuleFor, hl, hpm]
            rw [this, hr.1]
          · intro pv2 hpv2 m hm
            rcases List.mem_cons.mp hpv2 with he | he
            · subst he
              rw [hl] at hm
              cases hm
              exact ⟨mark, hpm⟩
            · exact hr.2 pv2 he m hm

/-- A successful mangle phase replaces each table's mark chain with its
per-entry `filterMap`. -/
theorem manglePolicyPhase_ok (w : World) (pairs : List (GoPolicy × PolicyCommon)) :
    ∀ (ts ts' : List Table), manglePolicyPhase w pairs ts = .ok ts' →
      ts' = ts.map (fun t => t.updateChain "EGRESSGATEWAY-MARK-REQUEST"
        (pairs.filterMap (mangleRuleFor w t.ipVersion)))
      ∧ ∀ t ∈ ts, ∃ rules, mangleChainRules w t.ipVersion pairs = .ok rules := by
  intro ts
  induction ts with
  | nil =>
    intro ts' h
    cases h
    exact ⟨rfl, by intro t ht; simp at ht⟩
  | cons t rest ih =>
    intro ts' h
    unfold manglePolicyPhase at h
    cases hcr : mangleChainRules w t.ipVersion pairs with
    | error e => rw [hcr] at h; cases h
    | ok rules =>
      rw [hcr] at h
      dsimp only at h
      cases hrest : manglePolicyPhase w pairs rest with
      | error e => rw [hrest] at h; cases h
      | ok ts2 =>
        rw [hrest] at h
        cases h
        have hr := ih ts2 hrest
        refine ⟨?_, ?_⟩
        · rw [List.map_cons, (mangleChainRules_ok w t.ipVersion pairs rules hcr).1, hr.1]
        · intro t2 ht2
          rcases List.mem_cons.mp ht2 with he | he
          · subst he
            exact ⟨rules, hcr⟩
          · exact hr.2 t2 he

/-- The shape of a successful full rebuild: the base mark parsed, and each
table list is its deterministic transform of the starting state - the
static glue phases over the original tables, the two engine chains
replaced from the finalized partition maps.  The set phase only touches
ipsets, never tables. -/
theorem initApplyPolicy_ok_shape (w : World) (cfg : Cfg) (st st' : AgentState)
    (hok : initApplyPolicy w cfg st = .ok st')
    (hne : w.gateways.isEmpty = false) :
    ∃ baseMark, parseMark cfg.mark = .ok baseMark
      ∧ st'.filterTables = applyStatic st.filterTables (buildFilterStaticRule baseMark)
      ∧ st'.mangleTables =
          (applyStatic (st.mangleTables.map
              (fun t => t.updateChain "EGRESSGATEWAY-MARK-REQUEST" []))
            (buildMangleStaticRule baseMark)).map
            (fun t => t.updateChain "EGRESSGATEWAY-MARK-REQUEST"
              ((finalizePairs w (collectPolicies w cfg.nodeName).2).filterMap
                (mangleRuleFor w t.ipVersion)))
      ∧ st'.natTables = natPhase st.natTables
          (finalizePairs w (collectPolicies w cfg.nodeName).1) baseMark
      ∧ (∀ t ∈ applyStatic (st.mangleTables.map
            (fun t => t.updateChain "EGRESSGATEWAY-MARK-REQUEST" []))
            (buildMangleStaticRule baseMark),
          ∃ rules, mangleChainRules w t.ipVersion
            (finalizePairs w (collectPolicies w cfg.nodeName).2) = .ok rules) := by
  unfold initApplyPolicy at hok
  simp only [hne, Bool.false_eq_true, if_false] at hok
  cases hsp1 : setPhase w cfg false st (collectPolicies w cfg.nodeName).2 with
  | error e => rw [hsp1] at hok; cases hok
  | ok r1 =>
    obtain ⟨st1, unsnat⟩ := r1
    rw [hsp1] at hok
    dsimp only at hok
    cases hsp2 : setPhase w cfg true st1 (collectPolicies w cfg.nodeName).1 with
    | error e => rw [hsp2] at hok; cases hok
    | ok r2 =>
      obtain ⟨st2, snat⟩ := r2
      rw [hsp2] at hok
      dsimp only at hok
      cases hpm : parseMark cfg.mark with
      | error e => rw [hpm] at hok; cases hok
      | ok baseMark =>
        rw [hpm] at hok
        dsimp only at hok
        cases hmp : manglePolicyPhase w unsnat
            (applyStatic (st2.mangleTables.map
              (fun t => t.updateChain "EGRESSGATEWAY-MARK-REQUEST" []))
              (buildMangleStaticRule baseMark)) with
        | error e => rw [hmp] at hok; cases hok
        | ok mangleT2 =>
          rw [hmp] at hok
          dsimp only at hok
          cases hok
          have h1 := setPhase_ok w cfg false _ st st1 unsnat hsp1
          have h2 := setPhase_ok w cfg true _ st1 st2 snat hsp2
          have hm := manglePolicyPhase_ok w unsnat _ mangleT2 hmp
          have hft : st2.filterTables = st.filterTables := h2.2.1.trans h1.2.1
          have hmt : st2.mangleTables = st.mangleTables := h2.2.2.1.trans h1.2.2.1
          have hnt : st2.natTables = st.natTables := h2.2.2.2.trans h1.2.2.2
          have hu : unsnat = finalizePairs w (collectPolicies w cfg.nodeName).2 := h1.1
          have hs : snat = finalizePairs w (collectPolicies w cfg.nodeName).1 := h2.1
          refine ⟨baseMark, rfl, ?_, ?_, ?_, ?_⟩
          · show applyStatic st2.filterTables (buildFilterStaticRule baseMark) = _
            rw [hft]
          · show mangleT2 = _
            rw [hm.1, hmt, hu]
          · show natPhase st2.natTables snat baseMark = _
            rw [hnt, hs]
          · intro t ht
            rw [← hu]
            refine hm.2 t ?_
            rw [hmt]
            exact ht

/-! ## Static-glue lemmas and C9 -/

/-- A table whose chain store is empty reads every chain as empty. -/
theorem getChain_of_empty (t : Table) (h : t.chains = []) (c : String) :
    t.getChain c = [] := by
  unfold Table.getChain
  rw [h]
  rfl

/-- `updateChain` preserves the family tag. -/
theorem updateChain_ipVersion (t : Table) (c : String) (rules : List Rule) :
    (t.updateChain c rules).ipVersion = t.ipVersion :=
  (setChain_meta t c rules).2

/-- Reading back the chain `updateChain` wrote. -/
theorem getChain_updateChain_self (t : Table) (c : String) (rules : List Rule) :
    (t.updateChain c rules).getChain c = rules :=
  getChain_setChain_self t c rules

/-- `updateChain` does not move another chain. -/
theorem getChain_updateChain_ne (t : Table) (c cx : String) (rules : List Rule)
    (h : (cx == c) = false) :
    (t.updateChain c rules).getChain cx = t.getChain cx :=
  getChain_setChain_ne t c cx rules h

/-- Effect of the filter static phase on one table. -/
theorem filterStatic_getChains (t : Table) (b : Nat) :
    ((buildFilterStaticRule b).foldl
        (fun t c => t.insertOrAppendRules c.1 c.2) t).getChain "FORWARD"
      = mergeRules (t.getChain "FORWARD") [acceptOnMark b]
    ∧ ((buildFilterStaticRule b).foldl
        (fun t c => t.insertOrAppendRules c.1 c.2) t).getChain "OUTPUT"
      = mergeRules (t.getChain "OUTPUT") [acceptOnMark b] := by
  have hfold : (buildFilterStaticRule b).foldl
      (fun t c => t.insertOrAppendRules c.1 c.2) t
      = (t.insertOrAppendRules "FORWARD" [acceptOnMark b]).insertOrAppendRules
        "OUTPUT" [acceptOnMark b] := rfl
  rw [hfold]
  constructor
  · rw [getChain_insertOrAppend_ne _ _ _ _ (by decide), getChain_insertOrAppend_self]
  · rw [getChain_insertOrAppend_self, getChain_insertOrAppend_ne _ _ _ _ (by decide)]

/-- Effect of the mangle static phase on one table. -/
theorem mangleStatic_getChains (t : Table) (b : Nat) :
    ((buildMangleStaticRule b).foldl
        (fun t c => t.insertOrAppendRules c.1 c.2) t).getChain "FORWARD"
      = mergeRules (t.getChain "FORWARD") [remarkRule b]
    ∧ ((buildMangleStaticRule b).foldl
        (fun t c => t.insertOrAppendRules c.1 c.2) t).getChain "POSTROUTING"
      = mergeRules (t.getChain "POSTROUTING") [acceptOnMark b]
    ∧ ((buildMangleStaticRule b).foldl
        (fun t c => t.insertOrAppendRules c.1 c.2) t).getChain "PREROUTING"
      = mergeRules (t.getChain "PREROUTING") [jumpMarkRule]
    ∧ ((buildMangleStaticRule b).foldl
        (fun t c => t.insertOrAppendRules c.1 c.2) t).getChain "EGRESSGATEWAY-MARK-REQUEST"
      = t.getChain "EGRESSGATEWAY-MARK-REQUEST"
    ∧ ((buildMangleStaticRule b).foldl
        (fun t c => t.insertOrAppendRules c.1 c.2) t).ipVersion = t.ipVersion := by
  have hfold : (buildMangleStaticRule b).foldl
      (fun t c => t.insertOrAppendRules c.1 c.2) t
      = ((t.insertOrAppendRules "FORWARD" [remarkRule b]).insertOrAppendRules
          "POSTROUTING" [acceptOnMark b]).insertOrAppendRules
          "PREROUTING" [jumpMarkRule] := rfl
  rw [hfold]
  refine ⟨?_, ?_, ?_, ?_, ?_⟩
  · rw [getChain_insertOrAppend_ne _ _ _ _ (by decide),
      getChain_insertOrAppend_ne _ _ _ _ (by decide), getChain_insertOrAppend_self]
  · rw [getChain_insertOrAppend_ne _ _ _ _ (by decide),
      getChain_insertOrAppend_self, getChain_insertOrAppend_ne _ _ _ _ (by decide)]
  · rw [getChain_insertOrAppend_self, getChain_insertOrAppend_ne _ _ _ _ (by decide),
      getChain_insertOrAppend_ne _ _ _ _ (by decide)]
  · rw [getChain_insertOrAppend_ne _ _ _ _ (by decide),
      getChain_insertOrAppend_ne _ _ _ _ (by decide),
      getChain_insertOrAppend_ne _ _ _ _ (by decide)]
  · exact ((setChain_meta _ _ _).2.trans (setChain_meta _ _ _).2).trans
      (setChain_meta _ _ _).2

/-- Effect of the nat static phase on one table. -/
theorem natStatic_getChains (t : Table) (b : Nat) :
    ((buildNatStaticRule b).foldl
        (fun t c => t.insertOrAppendRules c.1 c.2) t).getChain "POSTROUTING"
      = mergeRules (t.getChain "POSTROUTING") [acceptOnMark b, jumpSnatRule]
    ∧ ((buildNatStaticRule b).foldl
        (fun t c => t.insertOrAppendRules c.1 c.2) t).getChain "EGRESSGATEWAY-SNAT-EIP"
      = t.getChain "EGRESSGATEWAY-SNAT-EIP" := by
  have hfold : (buildNatStaticRule b).foldl
      (fun t c => t.insertOrAppendRules c.1 c.2) t
      = t.insertOrAppendRules "POSTROUTING" [acceptOnMark b, jumpSnatRule] := rfl
  rw [hfold]
  constructor
  · rw [getChain_insertOrAppend_self]
  · rw [getChain_insertOrAppend_ne _ _ _ _ (by decide)]

/-- All chain snapshots of `newAgentState` are empty. -/
theorem newAgentState_chains (cfg : Cfg) :
    (∀ t ∈ (newAgentState cfg).filterTables, t.chains = [])
    ∧ (∀ t ∈ (newAgentState cfg).mangleTables, t.chains = [])
    ∧ (∀ t ∈ (newAgentState cfg).natTables, t.chains = []) := by
  refine ⟨?_, ?_, ?_⟩ <;>
  · intro t ht
    simp only [newAgentState] at ht
    rcases List.mem_append.mp ht with h | h <;>
      by_cases hb : cfg.enableIPv4 = true <;>
      by_cases hb6 : cfg.enableIPv6 = true <;>
      simp [hb, hb6, freshTable] at h <;>
      simp [h, freshTable]

/-- Merging into an empty chain counts each incoming rule once. -/
theorem count_merge_of_empty (r : Rule) (rules : List Rule)
    (hmem : rules.contains r = true) : (mergeRules [] rules).count r = 1 := by
  rw [count_mergeRules]
  have hm : r ∈ rules := List.elem_iff.mp hmem
  simp [hm]

/-- Merging preserves a count of one. -/
theorem count_merge_of_one (r : Rule) (cur rules : List Rule)
    (h : cur.count r = 1) : (mergeRules cur rules).count r = 1 := by
  rw [count_mergeRules]
  have hm : r ∈ cur := by
    apply List.count_pos_iff.mp
    omega
  simp [hm, h]

/-- One successful rebuild writes each glue chain of each table as the
merge of that chain in the starting state with the corresponding static
rules. -/
theorem initApply_glue_step (w : World) (cfg : Cfg) (st st' : AgentState)
    (base : Nat) (hok : initApplyPolicy w cfg st = .ok st')
    (hne : w.gateways.isEmpty = false)
    (hbase : parseMark cfg.mark = .ok base) :
    (∀ t2 ∈ st'.filterTables, ∃ t ∈ st.filterTables,
        t2.getChain "FORWARD" = mergeRules (t.getChain "FORWARD") [acceptOnMark base]
        ∧ t2.getChain "OUTPUT" = mergeRules (t.getChain "OUTPUT") [acceptOnMark base])
    ∧ (∀ t2 ∈ st'.mangleTables, ∃ t ∈ st.mangleTables,
        t2.getChain "FORWARD" = mergeRules (t.getChain "FORWARD") [remarkRule base]
        ∧ t2.getChain "POSTROUTING"
            = mergeRules (t.getChain "POSTROUTING") [acceptOnMark base]
        ∧ t2.getChain "PREROUTING" = mergeRules (t.getChain "PREROUTING") [jumpMarkRule])
    ∧ (∀ t2 ∈ st'.natTables, ∃ t ∈ st.natTables,
        t2.getChain "POSTROUTING"
          = mergeRules (t.getChain "POSTROUTING") [acceptOnMark base, jumpSnatRule]) := by
  obtain ⟨b2, hb2, hft, hmt, hnt, _⟩ := initApplyPolicy_ok_shape w cfg st st' hok hne
  have hbb : b2 = base := by
    rw [hb2] at hbase
    exact (Except.ok.inj hbase)
  subst hbb
  refine ⟨?_, ?_, ?_⟩
  · intro t2 ht2
    rw [hft] at ht2
    obtain ⟨t, ht, heq⟩ := List.mem_map.mp ht2
    refine ⟨t, ht, ?_, ?_⟩
    · rw [← heq]
      exact (filterStatic_getChains t b2).1
    · rw [← heq]
      exact (filterStatic_getChains t b2).2
  · intro t2 ht2
    rw [hmt] at ht2
    obtain ⟨t3, ht3, heq3⟩ := List.mem_map.mp ht2
    unfold applyStatic at ht3
    obtain ⟨t4, ht4, heq4⟩ := List.mem_map.mp ht3
    obtain ⟨t, ht, heq5⟩ := List.mem_map.mp ht4
    refine ⟨t, ht, ?_, ?_, ?_⟩
    · rw [← heq3, getChain_updateChain_ne _ _ _ _ (by decide), ← heq4,
        (mangleStatic_getChains t4 b2).1, ← heq5,
        getChain_updateChain_ne _ _ _ _ (by decide)]
    · rw [← heq3, getChain_updateChain_ne _ _ _ _ (by decide), ← heq4,
        (mangleStatic_getChains t4 b2).2.1, ← heq5,
        getChain_updateChain_ne _ _ _ _ (by decide)]
    · rw [← heq3, getChain_updateChain_ne _ _ _ _ (by decide), ← heq4,
        (mangleStatic_getChains t4 b2).2.2.1, ← heq5,
        getChain_updateChain_ne _ _ _ _ (by decide)]
  · intro t2 ht2
    rw [hnt] at ht2
    unfold natPhase at ht2
    obtain ⟨t, ht, heq⟩ := List.mem_map.mp ht2
    refine ⟨t, ht, ?_⟩
    rw [← heq, (natStatic_getChains _ b2).1,
      getChain_updateChain_ne _ _ _ _ (by decide)]

/-- C9 counterexample: with an empty gateway list, `initApplyPolicy`
returns success immediately, leaving every chain empty - after this
successful run no static glue rule is present in any table. -/
theorem C9_counterexample :
    initApplyPolicy ⟨[], [], [], []⟩ ⟨"nodeA", true, false, "0x26000000"⟩
        (newAgentState ⟨"nodeA", true, false, "0x26000000"⟩)
      = .ok (newAgentState ⟨"nodeA", true, false, "0x26000000"⟩)
    ∧ (newAgentState ⟨"nodeA", true, false, "0x26000000"⟩).filterTables.map
        (fun t => t.getChain "FORWARD") = [[]]
    ∧ (newAgentState ⟨"nodeA", true, false, "0x26000000"⟩).natTables.map
        (fun t => t.getChain "POSTROUTING") = [[]] := by
  exact ⟨rfl, rfl, rfl⟩

/-- C9 (amended): after a successful full rebuild over a non-empty gateway
list, starting from the freshly constructed state, every static glue rule
is present exactly once in its built-in chain of each filter, mangle and
nat table - and a second successful rebuild leaves each of them present
exactly once, duplicating none. -/
theorem C9_glue_static (w : World) (cfg : Cfg) (st1 st2 : AgentState) (base : Nat)
    (hok1 : initApplyPolicy w cfg (newAgentState cfg) = .ok st1)
    (hne : w.gateways.isEmpty = false)
    (hok2 : initApplyPolicy w cfg st1 = .ok st2)
    (hbase : parseMark cfg.mark = .ok base) :
    (∀ t ∈ st1.filterTables, (t.getChain "FORWARD").count (acceptOnMark base) = 1
      ∧ (t.getChain "OUTPUT").count (acceptOnMark base) = 1)
    ∧ (∀ t ∈ st1.mangleTables, (t.getChain "FORWARD").count (remarkRule base) = 1
      ∧ (t.getChain "POSTROUTING").count (acceptOnMark base) = 1
      ∧ (t.getChain "PREROUTING").count jumpMarkRule = 1)
    ∧ (∀ t ∈ st1.natTables, (t.getChain "POSTROUTING").count (acceptOnMark base) = 1
      ∧ (t.getChain "POSTROUTING").count jumpSnatRule = 1)
    ∧ (∀ t ∈ st2.filterTables, (t.getChain "FORWARD").count (acceptOnMark base) = 1
      ∧ (t.getChain "OUTPUT").count (acceptOnMark base) = 1)
    ∧ (∀ t ∈ st2.mangleTables, (t.getChain "FORWARD").count (remarkRule base) = 1
      ∧ (t.getChain "POSTROUTING").count (acceptOnMark base) = 1
      ∧ (t.getChain "PREROUTING").count jumpMarkRule = 1)
    ∧ (∀ t ∈ st2.natTables, (t.getChain "POSTROUTING").count (acceptOnMark base) = 1
      ∧ (t.getChain "POSTROUTING").count jumpSnatRule = 1) := by
  have hs1 := initApply_glue_step w cfg (newAgentState cfg) st1 base hok1 hne hbase
  have hs2 := initApply_glue_step w cfg st1 st2 base hok2 hne hbase
  have hnew := newAgentState_chains cfg
  have hf1 : ∀ t ∈ st1.filterTables,
      (t.getChain "FORWARD").count (acceptOnMark base) = 1
      ∧ (t.getChain "OUTPUT").count (acceptOnMark base) = 1 := by
    intro t ht
    obtain ⟨t0, ht0, hF, hO⟩ := hs1.1 t ht
    rw [hF, hO, getChain_of_empty t0 (hnew.1 t0 ht0), getChain_of_empty t0 (hnew.1 t0 ht0)]
    exact ⟨count_merge_of_empty _ _ (by simp), count_merge_of_empty _ _ (by simp)⟩
  have hm1 : ∀ t ∈ st1.mangleTables,
      (t.getChain "FORWARD").count (remarkRule base) = 1
      ∧ (t.getChain "POSTROUTING").count (acceptOnMark base) = 1
      ∧ (t.getChain "PREROUTING").count jumpMarkRule = 1 := by
    intro t ht
    obtain ⟨t0, ht0, hF, hP, hR⟩ := hs1.2.1 t ht
    rw [hF, hP, hR, getChain_of_empty t0 (hnew.2.1 t0 ht0),
      getChain_of_empty t0 (hnew.2.1 t0 ht0), getChain_of_empty t0 (hnew.2.1 t0 ht0)]
    exact ⟨count_merge_of_empty _ _ (by simp), count_merge_of_empty _ _ (by simp),
      count_merge_of_empty _ _ (by simp)⟩
  have hn1 : ∀ t ∈ st1.natTables,
      (t.getChain "POSTROUTING").count (acceptOnMark base) = 1
      ∧ (t.getChain "POSTROUTING").count jumpSnatRule = 1 := by
    intro t ht
    obtain ⟨t0, ht0, hP⟩ := hs1.2.2 t ht
    rw [hP, getChain_of_empty t0 (hnew.2.2 t0 ht0)]
    exact ⟨count_merge_of_empty _ _ (by simp), count_merge_of_empty _ _ (by simp)⟩
  refine ⟨hf1, hm1, hn1, ?_, ?_, ?_⟩
  · intro t ht
    obtain ⟨t0, ht0, hF, hO⟩ := hs2.1 t ht
    rw [hF, hO]
    exact ⟨count_merge_of_one _ _ _ (hf1 t0 ht0).1, count_merge_of_one _ _ _ (hf1 t0 ht0).2⟩
  · intro t ht
    obtain ⟨t0, ht0, hF, hP, hR⟩ := hs2.2.1 t ht
    rw [hF, hP, hR]
    exact ⟨count_merge_of_one _ _ _ (hm1 t0 ht0).1,
      count_merge_of_one _ _ _ (hm1 t0 ht0).2.1,
      count_merge_of_one _ _ _ (hm1 t0 ht0).2.2⟩
  · intro t ht
    obtain ⟨t0, ht0, hP⟩ := hs2.2.2 t ht
    rw [hP]
    exact ⟨count_merge_of_one _ _ _ (hn1 t0 ht0).1, count_merge_of_one _ _ _ (hn1 t0 ht0).2⟩

/-- C9 witness: the amended theorem applied at a concrete world. -/
theorem C9_witness :
    ((c9st2.filterTables.getD 0 (freshTable "filter" 4)).getChain "FORWARD").count
        (acceptOnMark 637534208) = 1
    ∧ ((c9st2.natTables.getD 0 (freshTable "nat" 4)).getChain "POSTROUTING").count
        jumpSnatRule = 1 := by
  have h := C9_glue_static w9 cfg9 c9st1 c9st2 637534208 rfl rfl rfl rfl
  exact ⟨(h.2.2.2.1 _ (by decide)).1, (h.2.2.2.2.2 _ (by decide)).2⟩

/-! ## Partition-map lemmas (for C1) -/

/-- Key membership is membership in the key list. -/
theorem keyMem_iff_mem_keys (m : List (GoPolicy × PolicyCommon)) (x : GoPolicy) :
    keyMem m x ↔ x ∈ keysOf m := by
  simp [keyMem, keysOf, List.mem_map]

/-- The overwrite test of `mapStore` is key containment. -/
theorem any_key (m : List (GoPolicy × PolicyCommon)) (k : GoPolicy) :
    m.any (fun e => e.1 == k) = (keysOf m).contains k := by
  induction m with
  | nil => rfl
  | cons e es ih =>
    simp only [List.any_cons, keysOf, List.map_cons, List.contains_cons]
    rw [ih]
    congr 1
    cases he : (e.1 == k) with
    | true =>
      rw [beq_iff_eq] at he
      rw [he, beq_self_eq_true]
    | false =>
      cases hk : (k == e.1) with
      | false => rfl
      | true =>
        rw [beq_iff_eq] at hk
        rw [hk, beq_self_eq_true] at he
        exact Bool.noConfusion he

/-- Keys after `mapStore`: unchanged on overwrite, appended otherwise. -/
theorem keysOf_mapStore (m : List (GoPolicy × PolicyCommon)) (k : GoPolicy)
    (v : PolicyCommon) :
    keysOf (mapStore m k v)
      = if (keysOf m).contains k = true then keysOf m else keysOf m ++ [k] := by
  unfold mapStore
  rw [any_key]
  by_cases hc : (keysOf m).contains k = true
  · rw [if_pos hc, if_pos hc]
    unfold keysOf
    rw [List.map_map]
    apply List.map_congr_left
    intro e _
    by_cases he : (e.1 == k) = true
    · simp only [Function.comp_apply, he, if_pos]
      exact (beq_iff_eq.mp he).symm
    · simp only [Bool.not_eq_true] at he
      have hne : ¬(e.1 = k) := fun hh => by
        rw [hh, beq_self_eq_true] at he
        exact Bool.noConfusion he
      simp [Function.comp_apply, hne]
  · rw [if_neg hc, if_neg hc]
    simp [keysOf]

/-- Key membership after `mapStore`. -/
theorem keyMem_mapStore (m : List (GoPolicy × PolicyCommon)) (k : GoPolicy)
    (v : PolicyCommon) (x : GoPolicy) :
    keyMem (mapStore m k v) x ↔ x = k ∨ keyMem m x := by
  rw [keyMem_iff_mem_keys, keyMem_iff_mem_keys, keysOf_mapStore]
  by_cases hc : (keysOf m).contains k = true
  · rw [if_pos hc]
    constructor
    · exact Or.inr
    · rintro (rfl | h)
      · exact List.elem_iff.mp hc
      · exact h
  · rw [if_neg hc]
    rw [List.mem_append]
    simp [or_comm]

/-- `mapStore` keeps the key list duplicate-free. -/
theorem nodup_keys_mapStore (m : List (GoPolicy × PolicyCommon)) (k : GoPolicy)
    (v : PolicyCommon) (h : (keysOf m).Nodup) : (keysOf (mapStore m k v)).Nodup := by
  rw [keysOf_mapStore]
  by_cases hc : (keysOf m).contains k = true
  · rw [if_pos hc]
    exact h
  · rw [if_neg hc]
    refine List.Nodup.append h (List.nodup_singleton k) ?_
    intro a ha hb
    simp only [List.mem_singleton] at hb
    subst hb
    exact hc (List.elem_iff.mpr ha)

/-- Key membership through the policies fold. -/
theorem keyMem_foldPolicies (v : PolicyCommon) (x : GoPolicy) :
    ∀ (ps : List GoPolicy) (m : List (GoPolicy × PolicyCommon)),
      keyMem (ps.foldl (fun m p => mapStore m p v) m) x ↔ x ∈ ps ∨ keyMem m x := by
  intro ps
  induction ps with
  | nil => intro m; simp
  | cons p ps2 ih =>
    intro m
    rw [List.foldl_cons, ih, keyMem_mapStore]
    simp only [List.mem_cons]
    tauto

/-- The policies fold keeps the key list duplicate-free. -/
theorem nodup_foldPolicies (v : PolicyCommon) :
    ∀ (ps : List GoPolicy) (m : List (GoPolicy × PolicyCommon)),
      (keysOf m).Nodup → (keysOf (ps.foldl (fun m p => mapStore m p v) m)).Nodup := by
  intro ps
  induction ps with
  | nil => intro m h; exact h
  | cons p ps2 ih =>
    intro m h
    exact ih _ (nodup_keys_mapStore m p v h)

/-- Key membership through the EIP-list fold. -/
theorem keyMem_foldEips (f : GwEip → PolicyCommon) (x : GoPolicy) :
    ∀ (es : List GwEip) (m : List (GoPolicy × PolicyCommon)),
      keyMem (es.foldl
          (fun m e => e.policies.foldl (fun m p => mapStore m p (f e)) m) m) x
        ↔ (∃ e ∈ es, x ∈ e.policies) ∨ keyMem m x := by
  intro es
  induction es with
  | nil => intro m; simp
  | cons e es2 ih =>
    intro m
    rw [List.foldl_cons, ih, keyMem_foldPolicies]
    constructor
    · rintro (⟨e2, he2, hx⟩ | hx | hm)
      · exact Or.inl ⟨e2, List.mem_cons_of_mem e he2, hx⟩
      · exact Or.inl ⟨e, List.mem_cons_self e es2, hx⟩
      · exact Or.inr hm
    · rintro (⟨e2, he2, hx⟩ | hm)
      · rcases List.mem_cons.mp he2 with he | he
        · subst he
          exact Or.inr (Or.inl hx)
        · exact Or.inl ⟨e2, he, hx⟩
      · exact Or.inr (Or.inr hm)

/-- The EIP-list fold keeps the key list duplicate-free. -/
theorem nodup_foldEips (f : GwEip → PolicyCommon) :
    ∀ (es : List GwEip) (m : List (GoPolicy × PolicyCommon)),
      (keysOf m).Nodup →
      (keysOf (es.foldl
        (fun m e => e.policies.foldl (fun m p => mapStore m p (f e)) m) m)).Nodup := by
  intro es
  induction es with
  | nil => intro m h; exact h
  | cons e es2 ih =>
    intro m h
    exact ih _ (nodup_foldPolicies (f e) e.policies m h)

/-- Key membership of the two partitions through the node-list fold. -/
theorem keyMem_foldNodes (localNode : String) (x : GoPolicy) :
    ∀ (nls : List GwNode)
      (acc : List (GoPolicy × PolicyCommon) × List (GoPolicy × PolicyCommon)),
      (keyMem (nls.foldl (fun acc nl =>
        if nl.name == localNode then
          (nl.eips.foldl (fun s e =>
              e.policies.foldl (fun s p => mapStore s p ⟨nl.name, [], ⟨e.ipv4, e.ipv6⟩⟩) s)
            acc.1,
           acc.2)
        else
          (acc.1,
           nl.eips.foldl (fun u e =>
               e.policies.foldl (fun u p => mapStore u p ⟨nl.name, [], ⟨"", ""⟩⟩) u)
             acc.2)) acc).1 x
        ↔ (∃ nl ∈ nls, nl.name = localNode ∧ ∃ e ∈ nl.eips, x ∈ e.policies)
          ∨ keyMem acc.1 x)
      ∧ (keyMem (nls.foldl (fun acc nl =>
        if nl.name == localNode then
          (nl.eips.foldl (fun s e =>
              e.policies.foldl (fun s p => mapStore s p ⟨nl.name, [], ⟨e.ipv4, e.ipv6⟩⟩) s)
            acc.1,
           acc.2)
        else
          (acc.1,
           nl.eips.foldl (fun u e =>
               e.policies.foldl (fun u p => mapStore u p ⟨nl.name, [], ⟨"", ""⟩⟩) u)
             acc.2)) acc).2 x
        ↔ (∃ nl ∈ nls, ¬(nl.name = localNode) ∧ ∃ e ∈ nl.eips, x ∈ e.policies)
          ∨ keyMem acc.2 x) := by
  intro nls
  induction nls with
  | nil => intro acc; simp
  | cons nl nls2 ih =>
    intro acc
    rw [List.foldl_cons]
    by_cases hn : (nl.name == localNode) = true
    · have hname : nl.name = localNode := beq_iff_eq.mp hn
      rw [if_pos hn]
      have ihs := ih
        (nl.eips.foldl (fun s e =>
            e.policies.foldl (fun s p => mapStore s p ⟨nl.name, [], ⟨e.ipv4, e.ipv6⟩⟩) s)
          acc.1,
         acc.2)
      constructor
      · rw [ihs.1]
        dsimp only
        rw [keyMem_foldEips (fun e => ⟨nl.name, [], ⟨e.ipv4, e.ipv6⟩⟩) x nl.eips acc.1]
        constructor
        · rintro (⟨nl2, hnl2, hp⟩ | ⟨e, he, hx⟩ | hm)
          · exact Or.inl ⟨nl2, List.mem_cons_of_mem nl hnl2, hp⟩
          · exact Or.inl ⟨nl, List.mem_cons_self nl nls2, hname, e, he, hx⟩
          · exact Or.inr hm
        · rintro (⟨nl2, hnl2, hloc, e, he, hx⟩ | hm)
          · rcases List.mem_cons.mp hnl2 with h2 | h2
            · subst h2
              exact Or.inr (Or.inl ⟨e, he, hx⟩)
            · exact Or.inl ⟨nl2, h2, hloc, e, he, hx⟩
          · exact Or.inr (Or.inr hm)
      · rw [ihs.2]
        dsimp only
        constructor
        · rintro (⟨nl2, hnl2, hp⟩ | hm)
          · exact Or.inl ⟨nl2, List.mem_cons_of_mem nl hnl2, hp⟩
          · exact Or.inr hm
        · rintro (⟨nl2, hnl2, hloc, e, he, hx⟩ | hm)
          · rcases List.mem_cons.mp hnl2 with h2 | h2
            · subst h2
              exact absurd hname hloc
            · exact Or.inl ⟨nl2, h2, hloc, e, he, hx⟩
          · exact Or.inr hm
    · have hname : ¬(nl.name = localNode) := fun hh => by
        rw [hh, beq_self_eq_true] at hn
        exact hn rfl
      rw [if_neg hn]
      have ihs := ih
        (acc.1,
         nl.eips.foldl (fun u e =>
             e.policies.foldl (fun u p => mapStore u p ⟨nl.name, [], ⟨"", ""⟩⟩) u)
           acc.2)
      constructor
      · rw [ihs.1]
        dsimp only
        constructor
        · rintro (⟨nl2, hnl2, hp⟩ | hm)
          · exact Or.inl ⟨nl2, List.mem_cons_of_mem nl hnl2, hp⟩
          · exact Or.inr hm
        · rintro (⟨nl2, hnl2, hloc, e, he, hx⟩ | hm)
          · rcases List.mem_cons.mp hnl2 with h2 | h2
            · subst h2
              exact absurd hloc hname
            · exact Or.inl ⟨nl2, h2, hloc, e, he, hx⟩
          · exact Or.inr hm
      · rw [ihs.2]
        dsimp only
        rw [keyMem_foldEips (fun _ => ⟨nl.name, [], ⟨"", ""⟩⟩) x nl.eips acc.2]
        constructor
        · rintro (⟨nl2, hnl2, hp⟩ | ⟨e, he, hx⟩ | hm)
          · exact Or.inl ⟨nl2, List.mem_cons_of_mem nl hnl2, hp⟩
          · exact Or.inl ⟨nl, List.mem_cons_self nl nls2, hname, e, he, hx⟩
          · exact Or.inr hm
        · rintro (⟨nl2, hnl2, hloc, e, he, hx⟩ | hm)
          · rcases List.mem_cons.mp hnl2 with h2 | h2
            · subst h2
              exact Or.inr (Or.inl ⟨e, he, hx⟩)
            · exact Or.inl ⟨nl2, h2, hloc, e, he, hx⟩
          · exact Or.inr (Or.inr hm)

/-- The keys of the two partitions are exactly the policies listed under
local (respectively remote) nodes of some gateway's status. -/
theorem keyMem_collect (w : World) (localNode : String) (x : GoPolicy) :
    (keyMem (collectPolicies w localNode).1 x ↔ listedLocal w localNode x)
    ∧ (keyMem (collectPolicies w localNode).2 x ↔ listedRemote w localNode x) := by
  have aux : ∀ (gws : List Gateway)
      (acc : List (GoPolicy × PolicyCommon) × List (GoPolicy × PolicyCommon)),
      (keyMem (gws.foldl (fun acc gw =>
          gw.nodeList.foldl (fun acc nl =>
            if nl.name == localNode then
              (nl.eips.foldl (fun s e =>
                  e.policies.foldl (fun s p => mapStore s p ⟨nl.name, [], ⟨e.ipv4, e.ipv6⟩⟩) s)
                acc.1,
               acc.2)
            else
              (acc.1,
               nl.eips.foldl (fun u e =>
                   e.policies.foldl (fun u p => mapStore u p ⟨nl.name, [], ⟨"", ""⟩⟩) u)
                 acc.2))
            acc) acc).1 x
        ↔ (∃ gw ∈ gws, ∃ nl ∈ gw.nodeList, nl.name = localNode
            ∧ ∃ e ∈ nl.eips, x ∈ e.policies) ∨ keyMem acc.1 x)
      ∧ (keyMem (gws.foldl (fun acc gw =>
          gw.nodeList.foldl (fun acc nl =>
            if nl.name == localNode then
              (nl.eips.foldl (fun s e =>
                  e.policies.foldl (fun s p => mapStore s p ⟨nl.name, [], ⟨e.ipv4, e.ipv6⟩⟩) s)
                acc.1,
               acc.2)
            else
              (acc.1,
               nl.eips.foldl (fun u e =>
                   e.policies.foldl (fun u p => mapStore u p ⟨nl.name, [], ⟨"", ""⟩⟩) u)
                 acc.2))
            acc) acc).2 x
        ↔ (∃ gw ∈ gws, ∃ nl ∈ gw.nodeList, ¬(nl.name = localNode)
            ∧ ∃ e ∈ nl.eips, x ∈ e.policies) ∨ keyMem acc.2 x) := by
    intro gws
    induction gws with
    | nil => intro acc; simp
    | cons gw gws2 ih =>
      intro acc
      rw [List.foldl_cons]
      have ihs := ih (gw.nodeList.foldl (fun acc nl =>
        if nl.name == localNode then
          (nl.eips.foldl (fun s e =>
              e.policies.foldl (fun s p => mapStore s p ⟨nl.name, [], ⟨e.ipv4, e.ipv6⟩⟩) s)
            acc.1,
           acc.2)
        else
          (acc.1,
           nl.eips.foldl (fun u e =>
               e.policies.foldl (fun u p => mapStore u p ⟨nl.name, [], ⟨"", ""⟩⟩) u)
             acc.2)) acc)
      have hnodes := keyMem_foldNodes localNode x gw.nodeList acc
      constructor
      · rw [ihs.1, hnodes.1]
        constructor
        · rintro (⟨gw2, hgw2, hp⟩ | ⟨nl, hnl, hp⟩ | hm)
          · exact Or.inl ⟨gw2, List.mem_cons_of_mem gw hgw2, hp⟩
          · exact Or.inl ⟨gw, List.mem_cons_self gw gws2, nl, hnl, hp⟩
          · exact Or.inr hm
        · rintro (⟨gw2, hgw2, hp⟩ | hm)
          · rcases List.mem_cons.mp hgw2 with h2 | h2
            · subst h2
              exact Or.inr (Or.inl hp)
            · exact Or.inl ⟨gw2, h2, hp⟩
          · exact Or.inr (Or.inr hm)
      · rw [ihs.2, hnodes.2]
        constructor
        · rintro (⟨gw2, hgw2, hp⟩ | ⟨nl, hnl, hp⟩ | hm)
          · exact Or.inl ⟨gw2, List.mem_cons_of_mem gw hgw2, hp⟩
          · exact Or.inl ⟨gw, List.mem_cons_self gw gws2, nl, hnl, hp⟩
          · exact Or.inr hm
        · rintro (⟨gw2, hgw2, hp⟩ | hm)
          · rcases List.mem_cons.mp hgw2 with h2 | h2
            · subst h2
              exact Or.inr (Or.inl hp)
            · exact Or.inl ⟨gw2, h2, hp⟩
          · exact Or.inr (Or.inr hm)
  have h := aux w.gateways ([], [])
  constructor
  · rw [show (collectPolicies w localNode).1
        = (w.gateways.foldl (fun acc gw =>
          gw.nodeList.foldl (fun acc nl =>
            if nl.name == localNode then
              (nl.eips.foldl (fun s e =>
                  e.policies.foldl (fun s p => mapStore s p ⟨nl.name, [], ⟨e.ipv4, e.ipv6⟩⟩) s)
                acc.1,
               acc.2)
            else
              (acc.1,
               nl.eips.foldl (fun u e =>
                   e.policies.foldl (fun u p => mapStore u p ⟨nl.name, [], ⟨"", ""⟩⟩) u)
                 acc.2))
            acc) (([], []) :
              List (GoPolicy × PolicyCommon) × List (GoPolicy × PolicyCommon))).1 from rfl,
      h.1]
    unfold listedLocal
    simp [keyMem]
  · rw [show (collectPolicies w localNode).2
        = (w.gateways.foldl (fun acc gw =>
          gw.nodeList.foldl (fun acc nl =>
            if nl.name == localNode then
              (nl.eips.foldl (fun s e =>
                  e.policies.foldl (fun s p => mapStore s p ⟨nl.name, [], ⟨e.ipv4, e.ipv6⟩⟩) s)
                acc.1,
               acc.2)
            else
              (acc.1,
               nl.eips.foldl (fun u e =>
                   e.policies.foldl (fun u p => mapStore u p ⟨nl.name, [], ⟨"", ""⟩⟩) u)
                 acc.2))
            acc) (([], []) :
              List (GoPolicy × PolicyCommon) × List (GoPolicy × PolicyCommon))).2 from rfl,
      h.2]
    unfold listedRemote
    simp [keyMem]

/-- Go maps hold each key once: both partitions have duplicate-free keys. -/
theorem nodup_collect (w : World) (localNode : String) :
    (keysOf (collectPolicies w localNode).1).Nodup
    ∧ (keysOf (collectPolicies w localNode).2).Nodup := by
  have aux2 : ∀ (nls : List GwNode)
      (acc : List (GoPolicy × PolicyCommon) × List (GoPolicy × PolicyCommon)),
      (keysOf acc.1).Nodup → (keysOf acc.2).Nodup →
      (keysOf ((nls.foldl (fun acc nl =>
        if nl.name == localNode then
          (nl.eips.foldl (fun s e =>
              e.policies.foldl (fun s p => mapStore s p ⟨nl.name, [], ⟨e.ipv4, e.ipv6⟩⟩) s)
            acc.1,
           acc.2)
        else
          (acc.1,
           nl.eips.foldl (fun u e =>
               e.policies.foldl (fun u p => mapStore u p ⟨nl.name, [], ⟨"", ""⟩⟩) u)
             acc.2)) acc)).1).Nodup
      ∧ (keysOf ((nls.foldl (fun acc nl =>
        if nl.name == localNode then
          (nl.eips.foldl (fun s e =>
              e.policies.foldl (fun s p => mapStore s p ⟨nl.name, [], ⟨e.ipv4, e.ipv6⟩⟩) s)
            acc.1,
           acc.2)
        else
          (acc.1,
           nl.eips.foldl (fun u e =>
               e.policies.foldl (fun u p => mapStore u p ⟨nl.name, [], ⟨"", ""⟩⟩) u)
             acc.2)) acc)).2).Nodup := by
    intro nls
    induction nls with
    | nil => intro acc h1 h2; exact ⟨h1, h2⟩
    | cons nl nls2 ih =>
      intro acc h1 h2
      rw [List.foldl_cons]
      by_cases hn : (nl.name == localNode) = true
      · rw [if_pos hn]
        exact ih _ (nodup_foldEips (fun e => ⟨nl.name, [], ⟨e.ipv4, e.ipv6⟩⟩)
          nl.eips acc.1 h1) h2
      · rw [if_neg hn]
        exact ih _ h1 (nodup_foldEips (fun _ => ⟨nl.name, [], ⟨"", ""⟩⟩)
          nl.eips acc.2 h2)
  have aux : ∀ (gws : List Gateway)
      (acc : List (GoPolicy × PolicyCommon) × List (GoPolicy × PolicyCommon)),
      (keysOf acc.1).Nodup → (keysOf acc.2).Nodup →
      (keysOf ((gws.foldl (fun acc gw =>
        gw.nodeList.foldl (fun acc nl =>
          if nl.name == localNode then
            (nl.eips.foldl (fun s e =>
                e.policies.foldl (fun s p => mapStore s p ⟨nl.name, [], ⟨e.ipv4, e.ipv6⟩⟩) s)
              acc.1,
             acc.2)
          else
            (acc.1,
             nl.eips.foldl (fun u e =>
                 e.policies.foldl (fun u p => mapStore u p ⟨nl.name, [], ⟨"", ""⟩⟩) u)
               acc.2))
          acc) acc)).1).Nodup
      ∧ (keysOf ((gws.foldl (fun acc gw =>
        gw.nodeList.foldl (fun acc nl =>
          if nl.name == localNode then
            (nl.eips.foldl (fun s e =>
                e.policies.foldl (fun s p => mapStore s p ⟨nl.name, [], ⟨e.ipv4, e.ipv6⟩⟩) s)
              acc.1,
             acc.2)
          else
            (acc.1,
             nl.eips.foldl (fun u e =>
                 e.policies.foldl (fun u p => mapStore u p ⟨nl.name, [], ⟨"", ""⟩⟩) u)
               acc.2))
          acc) acc)).2).Nodup := by
    intro gws
    induction gws with
    | nil => intro acc h1 h2; exact ⟨h1, h2⟩
    | cons gw gws2 ih =>
      intro acc h1 h2
      rw [List.foldl_cons]
      have hstep := aux2 gw.nodeList acc h1 h2
      exact ih _ hstep.1 hstep.2
  exact aux w.gateways ([], []) List.nodup_nil List.nodup_nil

/-- `finalizePairs` keeps the key list. -/
theorem keysOf_finalizePairs (w : World) (m : List (GoPolicy × PolicyCommon)) :
    keysOf (finalizePairs w m) = keysOf m := by
  unfold keysOf finalizePairs
  rw [List.map_map]
  apply List.map_congr_left
  intro pv _
  rfl

/-- `finalizePairs` keeps key membership. -/
theorem keyMem_finalizePairs (w : World) (m : List (GoPolicy × PolicyCommon))
    (x : GoPolicy) : keyMem (finalizePairs w m) x ↔ keyMem m x := by
  rw [keyMem_iff_mem_keys, keyMem_iff_mem_keys, keysOf_finalizePairs]

/-- C1 counterexample: the policy `ns1/app` is listed under the remote node
`nodeB`, `initApplyPolicy` succeeds, and yet the mangle mark chain is empty
- no `EgressNode` object exists for `nodeB`, so the policy is silently
skipped, contributing no rule although its EIP is on a node other than the
local one. -/
theorem C1_counterexample :
    initApplyPolicy c1w c1cfg (newAgentState c1cfg) = .ok c1st
    ∧ (∃ gw ∈ c1w.gateways, ∃ nl ∈ gw.nodeList, ¬(nl.name = c1cfg.nodeName)
        ∧ ∃ e ∈ nl.eips, (⟨"ns1", "app"⟩ : GoPolicy) ∈ e.policies)
    ∧ c1st.mangleTables.map (fun t => t.getChain "EGRESSGATEWAY-MARK-REQUEST")
        = [[]] := by
  refine ⟨rfl, ?_, rfl⟩
  exact ⟨⟨"default", [⟨"nodeB", [⟨"10.6.1.21", "", [⟨"ns1", "app"⟩]⟩]⟩]⟩,
    by decide, ⟨"nodeB", [⟨"10.6.1.21", "", [⟨"ns1", "app"⟩]⟩]⟩, by decide,
    by decide, ⟨"10.6.1.21", "", [⟨"ns1", "app"⟩]⟩, by decide, by decide⟩

/-- C1 (amended): after a successful full rebuild over a non-empty gateway
list (with at least one mangle table constructed), the engine chains are
exactly the per-policy contributions of the two partition maps; each
partition holds a policy at most once; a policy listed under a remote node
contributes its one mark rule iff that node's `EgressNode` object exists in
the local view; a policy listed under the local node contributes its one
SNAT rule iff its EIP has a non-empty address; and the partitions hold
exactly the policies listed under remote (respectively local) nodes, so a
policy listed under exactly one node never contributes to both chains. -/
theorem C1_rule_contribution (w : World) (cfg : Cfg) (st st' : AgentState)
    (p : GoPolicy)
    (hok : initApplyPolicy w cfg st = .ok st')
    (hne : w.gateways.isEmpty = false)
    (hmt : st.mangleTables ≠ []) :
    (st'.mangleTables.map (fun t => t.getChain "EGRESSGATEWAY-MARK-REQUEST")
        = st.mangleTables.map (fun t =>
            (finalizePairs w (collectPolicies w cfg.nodeName).2).filterMap
              (mangleRuleFor w t.ipVersion)))
    ∧ (st'.natTables.map (fun t => t.getChain "EGRESSGATEWAY-SNAT-EIP")
        = st.natTables.map (fun t =>
            (finalizePairs w (collectPolicies w cfg.nodeName).1).filterMap
              (natRuleFor t.ipVersion)))
    ∧ (keysOf (finalizePairs w (collectPolicies w cfg.nodeName).2)).Nodup
    ∧ (keysOf (finalizePairs w (collectPolicies w cfg.nodeName).1)).Nodup
    ∧ (∀ pv ∈ finalizePairs w (collectPolicies w cfg.nodeName).2, ∀ v,
        ((mangleRuleFor w v pv).isSome
          ↔ (lookupStr w.egressNodeMarks pv.2.nodeName).isSome))
    ∧ (∀ pv ∈ finalizePairs w (collectPolicies w cfg.nodeName).1, ∀ v,
        ((natRuleFor v pv).isSome ↔ ¬(pv.2.ip.v4 = "" ∧ pv.2.ip.v6 = "")))
    ∧ (keyMem (finalizePairs w (collectPolicies w cfg.nodeName).2) p
        ↔ listedRemote w cfg.nodeName p)
    ∧ (keyMem (finalizePairs w (collectPolicies w cfg.nodeName).1) p
        ↔ listedLocal w cfg.nodeName p) := by
  obtain ⟨base, hbase, hft, hmtbl, hntbl, hcr⟩ :=
    initApplyPolicy_ok_shape w cfg st st' hok hne
  refine ⟨?_, ?_, ?_, ?_, ?_, ?_, ?_, ?_⟩
  · rw [hmtbl]
    unfold applyStatic
    rw [List.map_map, List.map_map, List.map_map]
    apply List.map_congr_left
    intro t _
    simp only [Function.comp_apply]
    rw [getChain_updateChain_self,
      (mangleStatic_getChains (t.updateChain "EGRESSGATEWAY-MARK-REQUEST" []) base).2.2.2.2,
      updateChain_ipVersion]
  · rw [hntbl]
    unfold natPhase
    rw [List.map_map]
    apply List.map_congr_left
    intro t _
    simp only [Function.comp_apply]
    rw [(natStatic_getChains _ base).2, getChain_updateChain_self]
    rfl
  · rw [keysOf_finalizePairs]
    exact (nodup_collect w cfg.nodeName).2
  · rw [keysOf_finalizePairs]
    exact (nodup_collect w cfg.nodeName).1
  · obtain ⟨t0, ht0⟩ := List.exists_mem_of_ne_nil st.mangleTables hmt
    have hmem : ((buildMangleStaticRule base).foldl
        (fun t c => t.insertOrAppendRules c.1 c.2)
        (t0.updateChain "EGRESSGATEWAY-MARK-REQUEST" []))
        ∈ applyStatic (st.mangleTables.map
          (fun t => t.updateChain "EGRESSGATEWAY-MARK-REQUEST" []))
          (buildMangleStaticRule base) := by
      unfold applyStatic
      exact List.mem_map.mpr ⟨t0.updateChain "EGRESSGATEWAY-MARK-REQUEST" [],
        List.mem_map.mpr ⟨t0, ht0, rfl⟩, rfl⟩
    obtain ⟨rules, hrules⟩ := hcr _ hmem
    have hparse := (mangleChainRules_ok w _ _ rules hrules).2
    intro pv hpv v
    cases hl : lookupStr w.egressNodeMarks pv.2.nodeName with
    | none => simp [mangleRuleFor, hl]
    | some m =>
      obtain ⟨k, hk⟩ := hparse pv hpv m hl
      simp [mangleRuleFor, hl, hk]
  · intro pv hpv v
    unfold natRuleFor buildEipRule
    by_cases he : (pv.2.ip.v4 == "" && pv.2.ip.v6 == "") = true
    · rw [if_pos he]
      simp only [Bool.and_eq_true, beq_iff_eq] at he
      simp [he.1, he.2]
    · rw [if_neg he]
      simp only [Bool.and_eq_true, beq_iff_eq] at he
      simp only [Option.isSome_some, true_iff]
      intro hcon
      exact he ⟨hcon.1, hcon.2⟩
  · rw [keyMem_finalizePairs]
    exact (keyMem_collect w cfg.nodeName p).2
  · rw [keyMem_finalizePairs]
    exact (keyMem_collect w cfg.nodeName p).1

/-- A concrete instantiation of C1: over `c1wk` (one remote policy, mark
known) the rebuild succeeds and the amended contribution statement holds. -/
theorem C1_witness :
    initApplyPolicy c1wk c1cfg (newAgentState c1cfg) = .ok c1stk
    ∧ (c1stk.mangleTables.map (fun t => t.getChain "EGRESSGATEWAY-MARK-REQUEST")
        = (newAgentState c1cfg).mangleTables.map (fun t =>
            (finalizePairs c1wk (collectPolicies c1wk c1cfg.nodeName).2).filterMap
              (mangleRuleFor c1wk t.ipVersion)))
    ∧ (keyMem (finalizePairs c1wk (collectPolicies c1wk c1cfg.nodeName).2)
          ⟨"ns1", "app"⟩
        ↔ listedRemote c1wk c1cfg.nodeName ⟨"ns1", "app"⟩) := by
  have h := C1_rule_contribution c1wk c1cfg (newAgentState c1cfg) c1stk
    ⟨"ns1", "app"⟩ rfl rfl (by decide)
  exact ⟨rfl, h.1, h.2.2.2.2.2.2.1⟩

end EgressGW
